import Mathlib

/-!
Verification of the publish-github-to-hashnode reconciliation engine.

Shallow embedding of `src/entrypoint.py`, `src/graphql.py` and
`src/constants.py`.  Python dictionaries/JSON values are modelled by an
inductive `Json` type; Python exceptions by `Except PyErr`; the remote
HTTP endpoint by a stream of response bodies consumed in request order
(the value returned by `HashnodeAPI._execute_request`, which yields the
empty dict `{}` on a non-2xx status).  Strings are modelled over their
character lists; `str.strip`/`str.lower` and the regex character class
`\s` are modelled for the ASCII range.
-/

deriving instance DecidableEq for Except

namespace HNode

/-- Python exceptions raised by the code paths under study. -/
inductive PyErr where
  /-- `ValueError(msg)` raised by the validators. -/
  | valueError (msg : String)
  /-- `KeyError` from a missing dictionary key. -/
  | keyError
  /-- `TypeError`/`AttributeError` from subscripting or calling `.get` on a non-dict. -/
  | typeError
  /-- Modelling artifact: the response stream ran out (the real remote always answers). -/
  | noResponse
deriving DecidableEq, Repr

/-- JSON values / Python dict-of-literals, as passed around by the entrypoint. -/
inductive Json where
  | null
  | b (v : Bool)
  | s (v : String)
  | num (v : Int)
  | arr (elems : List Json)
  | obj (fields : List (String × Json))
deriving Repr

/-- Python `d[k]` on a dict: the value, or `KeyError`; `TypeError` on a non-dict. -/
def jget (j : Json) (k : String) : Except PyErr Json :=
  match j with
  | .obj fields =>
      match fields.lookup k with
      | some v => .ok v
      | none => .error .keyError
  | _ => .error .typeError

/-- Python `d.get(k)` on a dict: the value or `None`; error on a non-dict. -/
def jgetOpt (j : Json) (k : String) : Except PyErr Json :=
  match j with
  | .obj fields => .ok ((fields.lookup k).getD .null)
  | _ => .error .typeError

/-- Python truthiness of a JSON-like value. -/
def jTruthy : Json → Bool
  | .null => false
  | .b v => v
  | .s v => !(v == "")
  | .num v => !(v == 0)
  | .arr elems => !elems.isEmpty
  | .obj fields => !fields.isEmpty

/-! ### Python string primitives (ASCII model)

`str.strip()` with no argument and the regex class `\s` both match ASCII
whitespace; we model the six ASCII whitespace characters. -/

/-- ASCII whitespace, as stripped by `str.strip()` and matched by `\s`. -/
def pyWs (c : Char) : Bool :=
  c == ' ' || c == '\t' || c == '\n' || c == '\r' || c == (Char.ofNat 11) || c == (Char.ofNat 12)

/-- `str.strip()` on a character list. -/
def stripL (l : List Char) : List Char :=
  ((l.dropWhile pyWs).reverse.dropWhile pyWs).reverse

/-- `str.strip()`. -/
def pyStrip (s : String) : String := ⟨stripL s.data⟩

/-- `str.lower()` (ASCII model, matching `Char.toLower`). -/
def pyLower (s : String) : String := ⟨s.data.map Char.toLower⟩

/-- `re.sub(r"\s+", "-", ·)`: collapse each maximal whitespace run to one hyphen.
The flag records whether the previous character was inside a whitespace run. -/
def collapseGo : Bool → List Char → List Char
  | _, [] => []
  | prevWs, c :: cs =>
      if pyWs c then
        if prevWs then collapseGo true cs else '-' :: collapseGo true cs
      else c :: collapseGo false cs

/-- `re.sub(r"\s+", "-", ·)` on a character list. -/
def collapseWs (l : List Char) : List Char := collapseGo false l

/-- `MarkdownFileHandler._generate_slug`:
`re.sub(r"\s+", "-", title.strip().lower())`. -/
def generateSlug (s : String) : String :=
  ⟨collapseWs ((stripL s.data).map Char.toLower)⟩

/-! ### Frontmatter metadata and validation (`MarkdownFileHandler`) -/

/-- A processed tag `{"slug": ..., "name": ...}`. -/
structure Tag where
  slug : String
  name : String
deriving DecidableEq, Repr

/-- The raw `tags` frontmatter value: either a string, or any structured
(non-string) YAML value such as a list. -/
inductive TagsVal where
  | str (s : String)
  | structured
deriving DecidableEq, Repr

/-- Raw frontmatter metadata of one markdown file, as parsed by
`frontmatter.load`.  `Option` fields model key presence/absence; the
boolean flags model `metadata.get(field, False)`. -/
structure Meta where
  title : Option String := none
  slug : Option String := none
  tags : Option TagsVal := none
  publishedAt : Option String := none
  subtitle : Option String := none
  enableTableOfContents : Bool := false
  delisted : Bool := false
  disableComments : Bool := false
  coverImage : Option String := none
  coverImageAttribution : Option String := none
deriving DecidableEq, Repr

/-- Metadata after `MarkdownFileHandler._validate_frontmatter` ran. -/
structure PMeta where
  title : String
  subtitle : Option String
  slug : String
  tags : List Tag
  publishedAt : String
  enableTableOfContents : Bool
  delisted : Bool
  disableComments : Bool
  coverImage : Option String
  coverImageAttribution : Option String
deriving DecidableEq, Repr

/-- Python `str.split(",")` on a character list (note `"".split(",") == [""]`). -/
def splitCommaGo (cur : List Char) : List Char → List String
  | [] => [⟨cur.reverse⟩]
  | c :: cs =>
      if c == ',' then ⟨cur.reverse⟩ :: splitCommaGo [] cs
      else splitCommaGo (c :: cur) cs

/-- Python `s.split(",")`. -/
def pySplitComma (s : String) : List String := splitCommaGo [] s.data

/-- `MarkdownFileHandler._process_tags`. -/
def processTags : TagsVal → Except PyErr (List Tag)
  | .structured => .error (.valueError "Tags must be a comma-separated string")
  | .str s =>
      .ok ((pySplitComma s).map fun tok => ⟨pyLower (pyStrip tok), pyStrip tok⟩)

/-- `MarkdownFileHandler._get_publish_date`: keep a truthy provided value,
default to the current UTC timestamp otherwise. -/
def getPublishDate (publishedAt : Option String) (now : String) : String :=
  match publishedAt with
  | some s => if s == "" then now else s
  | none => now

/-- `MarkdownFileHandler._validate`: `_validate_content` then
`_validate_frontmatter` (which rewrites slug, tags and publishedAt). -/
def validateDoc (m : Meta) (content : String) (now : String) : Except PyErr PMeta :=
  if pyStrip content == "" then .error (.valueError "Content cannot be empty")
  else
    match m.title with
    | none => .error (.valueError "Missing required frontmatter field: title")
    | some title =>
        let slug := generateSlug (m.slug.getD title)
        match processTags (m.tags.getD (.str "")) with
        | .error e => .error e
        | .ok tags =>
            .ok { title := title, subtitle := m.subtitle, slug := slug, tags := tags
                  publishedAt := getPublishDate m.publishedAt now
                  enableTableOfContents := m.enableTableOfContents
                  delisted := m.delisted
                  disableComments := m.disableComments
                  coverImage := m.coverImage
                  coverImageAttribution := m.coverImageAttribution }

/-! ### Paths (`pathlib.Path`, relative paths as component lists) -/

/-- A relative filesystem path as its component list (`Path.parts`). -/
structure PPath where
  parts : List String
deriving DecidableEq, Repr

/-- `str(path)` for a relative path. -/
def PPath.toStr (p : PPath) : String :=
  match p.parts with
  | [] => "."
  | _ => String.intercalate "/" p.parts

/-- `Path.parent`. -/
def PPath.parent (p : PPath) : PPath := ⟨p.parts.dropLast⟩

/-- Index of the last occurrence of `c`, or `none` (Python `str.rfind`). -/
def lastIdxOf (c : Char) (l : List Char) : Option Nat :=
  match l.reverse.findIdx? (· == c) with
  | some j => some (l.length - 1 - j)
  | none => none

/-- `PurePath.suffix`: the final extension with its dot, or `""`.
CPython keeps the extension only when the last dot of the final component
is neither at index 0 nor in last position. -/
def PPath.suffix (p : PPath) : String :=
  match p.parts.getLast? with
  | none => ""
  | some name =>
      match lastIdxOf '.' name.data with
      | none => ""
      | some i =>
          if 0 < i && i < name.data.length - 1 then ⟨name.data.drop i⟩ else ""

/-- `Path.is_relative_to` for relative paths: component-list prefix. -/
def PPath.isRelTo (p dir : PPath) : Bool :=
  dir.parts.isPrefixOf p.parts

/-- `Path(parent) / rel` followed by `.as_posix()`, for a string `rel`
(an absolute `rel` replaces the parent, as in `pathlib`). -/
def posixJoin (parent : PPath) (rel : String) : String :=
  if rel.data.head? == some '/' then rel
  else match parent.parts with
    | [] => rel
    | ps => String.intercalate "/" ps ++ "/" ++ rel

example : (PPath.mk ["posts", "a.md"]).suffix = ".md" := by decide
example : (PPath.mk ["posts", "a"]).suffix = "" := by decide
example : (PPath.mk ["posts", ".md"]).suffix = "" := by decide
example : (PPath.mk ["posts", "a."]).suffix = "" := by decide
example : (PPath.mk ["posts", "a.md"]).isRelTo ⟨["posts"]⟩ = true := by decide
example : (PPath.mk ["other", "a.md"]).isRelTo ⟨["posts"]⟩ = false := by decide
example : (PPath.mk ["a.md"]).isRelTo ⟨[]⟩ = true := by decide

/-! ### Content rewriting (`MarkdownFileHandler._update_image_urls`)

A faithful executable model of
`re.sub(r"!\[(.*?)\]\((?!http)(.*?)\)", repl, content)`:
`.` never matches a newline, `(.*?)` is lazy with backtracking, and
`(?!http)` is a negative lookahead at the position after `](`. -/

/-- The lazy path group: shortest `(.*?)` followed by a literal `)`,
with `.` not matching newlines.  Returns the group and the rest. -/
def searchPath (acc : List Char) : List Char → Option (List Char × List Char)
  | [] => none
  | c :: cs =>
      if c == ')' then some (acc.reverse, cs)
      else if c == '\n' then none
      else searchPath (c :: acc) cs

/-- One attempt to close the alt group at the current position: the
literal `](`, then the `(?!http)` lookahead, then the path group. -/
def tryHere (acc : List Char) (c : Char) (cs : List Char) :
    Option (List Char × List Char × List Char) :=
  match cs with
  | c2 :: after =>
      if c == ']' && c2 == '(' then
        if ("http".data).isPrefixOf after then none
        else
          match searchPath [] after with
          | some (path, rest) => some (acc.reverse, path, rest)
          | none => none
      else none
  | [] => none

/-- The lazy alt group: at each position first try to close the group
(`tryHere`); on failure extend it by one non-newline character, as regex
backtracking does. -/
def searchAlt (acc : List Char) : List Char → Option (List Char × List Char × List Char)
  | [] => none
  | c :: cs =>
      match tryHere acc c cs with
      | some r => some r
      | none => if c == '\n' then none else searchAlt (c :: acc) cs

/-- Try to match the image regex at the head of `l`; on success return
the alt group, the path group, and the remaining input. -/
def tryMatchAt (l : List Char) : Option (List Char × List Char × List Char) :=
  match l with
  | c1 :: c2 :: rest => if c1 == '!' && c2 == '[' then searchAlt [] rest else none
  | _ => none

example : tryMatchAt "![a](b.png) x".data =
    some ("a".data, "b.png".data, " x".data) := by decide
example : tryMatchAt "![a](http://x) y".data = none := by decide
example : tryMatchAt "![a](http://x)](y)".data =
    some ("a](http://x)".data, "y".data, ([] : List Char)) := by decide
example : tryMatchAt "[a](b.png)".data = none := by decide
example : tryMatchAt "![a]\n(b)".data = none := by decide

/-- Run configuration: the environment of `constants.py`, the posts tree on
disk, the parsed content of each file (`frontmatter.load`), and the current
UTC timestamp. -/
structure Config where
  /-- `POSTS_DIRECTORY`. -/
  postsDirectory : PPath
  /-- `ALL_CHANGED_FILES` (order of the de-duplicated list). -/
  changedFiles : List PPath
  /-- The files found by `POSTS_DIRECTORY.rglob("*.md")`, in order. -/
  localFiles : List PPath
  /-- Whether `POSTS_DIRECTORY.is_dir()` holds. -/
  postsDirExists : Bool
  /-- `frontmatter.load` of each file: its metadata and body. -/
  fileData : PPath → Meta × String
  /-- `datetime.now(UTC)` formatted as in `_get_publish_date`. -/
  now : String
  /-- `GITHUB_REPOSITORY`. -/
  repository : String
  /-- `BRANCH`. -/
  branch : String

/-- `MarkdownFileHandler._get_resource_url`:
`f"{GITHUB_RAW_URL}/{GITHUB_REPOSITORY}/{BRANCH}/{path.as_posix()}"`. -/
def resourceUrl (cfg : Config) (posixPath : String) : String :=
  "https://raw.githubusercontent.com/" ++ cfg.repository ++ "/" ++ cfg.branch ++ "/" ++ posixPath

/-- The replacement text produced for one image match:
`f"![{alt}]({resource_url(file_path.parent / path)})"`. -/
def replText (cfg : Config) (filePath : PPath) (alt path : List Char) : List Char :=
  ("![".data) ++ alt ++ ("](".data) ++
    (resourceUrl cfg (posixJoin filePath.parent ⟨path⟩)).data ++ [')']

/-- One scan step of `re.sub`: either replace a match at this position and
continue after it, or emit one character.  `fuel ≥ length` makes the
recursion structural; every match consumes at least five characters. -/
def subScanGo (cfg : Config) (filePath : PPath) : Nat → List Char → List Char
  | _, [] => []
  | 0, l => l
  | fuel + 1, c :: cs =>
      match tryMatchAt (c :: cs) with
      | some (alt, path, rest) =>
          replText cfg filePath alt path ++ subScanGo cfg filePath fuel rest
      | none => c :: subScanGo cfg filePath fuel cs

/-- `MarkdownFileHandler._update_image_urls` applied to the body. -/
def updateImageUrls (cfg : Config) (filePath : PPath) (content : String) : String :=
  ⟨subScanGo cfg filePath content.data.length content.data⟩

/-- A decomposition segment of the body: an untouched character or one
regex match (alt group, path group). -/
inductive Piece where
  | ch (c : Char)
  | img (alt path : List Char)
deriving DecidableEq, Repr

/-- The same scan as `subScanGo`, recording the decomposition instead of
the rewritten text. -/
def piecesGo : Nat → List Char → List Piece
  | _, [] => []
  | 0, l => l.map .ch
  | fuel + 1, c :: cs =>
      match tryMatchAt (c :: cs) with
      | some (alt, path, rest) => .img alt path :: piecesGo fuel rest
      | none => .ch c :: piecesGo fuel cs

/-- The decomposition of a body into untouched characters and matches. -/
def pieces (l : List Char) : List Piece := piecesGo l.length l

/-- Reassemble the original text of a segment. -/
def Piece.orig : Piece → List Char
  | .ch c => [c]
  | .img alt path => ("![".data) ++ alt ++ ("](".data) ++ path ++ [')']

/-- Reassemble the rewritten text of a segment. -/
def Piece.repl (cfg : Config) (filePath : PPath) : Piece → List Char
  | .ch c => [c]
  | .img alt path => replText cfg filePath alt path

/-- `MarkdownFileHandler._get_cover_image_url`. -/
def getCoverImageUrl (cfg : Config) (filePath : PPath) (cover : Option String) : Json :=
  match cover with
  | none => .null
  | some c =>
      if !(c == "") && !(("http".data).isPrefixOf c.data) then
        .s (resourceUrl cfg (posixJoin filePath.parent c))
      else .s c

/-! ### Post payloads (`MarkdownFileHandler.build_post_data`) -/

/-- `None`-able string field. -/
def optJson : Option String → Json
  | none => .null
  | some s => .s s

/-- Tags as the JSON array sent to the API. -/
def tagsJson (tags : List Tag) : Json :=
  .arr (tags.map fun t => .obj [("slug", .s t.slug), ("name", .s t.name)])

/-- `MarkdownFileHandler.build_post_data(post_id)`, after
`_update_image_urls` rewrote the content.  `postId` is `None`
(`Json.null`) or the id returned by the slug lookup; the branch is on its
truthiness (`if post_id:`). -/
def buildPostData (cfg : Config) (filePath : PPath) (pm : PMeta) (content : String)
    (publicationId : Json) (postId : Json) : Json :=
  let cover := getCoverImageUrl cfg filePath pm.coverImage
  if jTruthy postId then
    .obj [("id", postId),
          ("title", .s pm.title),
          ("subtitle", optJson pm.subtitle),
          ("publicationId", publicationId),
          ("contentMarkdown", .s content),
          ("publishedAt", .s pm.publishedAt),
          ("coverImageOptions", .obj [("coverImageURL", cover),
                                      ("coverImageAttribution", optJson pm.coverImageAttribution)]),
          ("slug", .s pm.slug),
          ("tags", tagsJson pm.tags),
          ("settings", .obj [("isTableOfContentEnabled", .b pm.enableTableOfContents),
                             ("delisted", .b pm.delisted),
                             ("disableComments", .b pm.disableComments)])]
  else
    .obj [("title", .s pm.title),
          ("subtitle", optJson pm.subtitle),
          ("publicationId", publicationId),
          ("contentMarkdown", .s content),
          ("publishedAt", .s pm.publishedAt),
          ("coverImageOptions", .obj [("coverImageURL", cover),
                                      ("coverImageAttribution", optJson pm.coverImageAttribution)]),
          ("slug", .s pm.slug),
          ("tags", tagsJson pm.tags),
          ("settings", .obj [("enableTableOfContent", .b pm.enableTableOfContents),
                             ("delisted", .b pm.delisted),
                             ("slugOverridden", .b true)]),
          ("disableComments", .b pm.disableComments)]
example : generateSlug "  A  \t B " = "a-b" := by decide
example : processTags (.str "a, B ,c") =
    .ok [⟨"a", "a"⟩, ⟨"b", "B"⟩, ⟨"c", "c"⟩] := by decide
example : processTags (.str "") = .ok [⟨"", ""⟩] := by decide
example : validateDoc { title := some "Hello World" } "body" "T0" =
    .ok { title := "Hello World", subtitle := none, slug := "hello-world",
          tags := [⟨"", ""⟩], publishedAt := "T0",
          enableTableOfContents := false, delisted := false,
          disableComments := false, coverImage := none,
          coverImageAttribution := none } := by decide

/-! ### Remote responses (`graphql.py`)

`HashnodeAPI._execute_request` returns `response.json()` on a 2xx status
and the empty dict `{}` (`Json.obj []`) on any `HTTPError`; it never
raises.  Each extraction function below is the code that runs on that
returned value. -/

/-- `HashnodeAPI._fetch_publication_id`:
`response["data"]["publication"]["id"]` (uncaught `KeyError` on failure). -/
def pubIdFromResp (r : Json) : Except PyErr Json :=
  match jget r "data" with
  | .error e => .error e
  | .ok d =>
      match jget d "publication" with
      | .error e => .error e
      | .ok pub => jget pub "id"

/-- `HashnodeAPI.get_post_id`:
`post = response["data"]["publication"].get("post")`;
`post["id"] if post else None` (uncaught `KeyError` on failure). -/
def postIdFromResp (r : Json) : Except PyErr Json :=
  match jget r "data" with
  | .error e => .error e
  | .ok d =>
      match jget d "publication" with
      | .error e => .error e
      | .ok pub =>
          match jgetOpt pub "post" with
          | .error e => .error e
          | .ok post => if jTruthy post then jget post "id" else .ok .null

/-- The body of the `try` block in
`HashnodeAPI._extract_post_data(response, action, ...)`: reads
`response["data"][f"{action.split()[0].lower()}Post"]["post"]` and the
`id`/`title`/`slug` keys of the debug format string.  Note the computed
key is `"createdPost"`/`"updatedPost"` (from the labels
`"Created Post"`/`"Updated Post"`), not the response keys
`"publishPost"`/`"updatePost"`. -/
def extractPostAttempt (r : Json) (opKey : String) : Except PyErr Json :=
  match jget r "data" with
  | .error e => .error e
  | .ok d =>
      match jget d opKey with
      | .error e => .error e
      | .ok op =>
          match jget op "post" with
          | .error e => .error e
          | .ok post =>
              match jget post "id" with
              | .error e => .error e
              | .ok _ =>
                  match jget post "title" with
                  | .error e => .error e
                  | .ok _ =>
                      match jget post "slug" with
                      | .error e => .error e
                      | .ok _ => .ok post

/-- `HashnodeAPI._extract_post_data`: the `try` body with `KeyError`
caught (logging, then returning the empty dict); other exceptions
propagate. -/
def extractPostData (r : Json) (opKey : String) : Except PyErr Json :=
  match extractPostAttempt r opKey with
  | .ok post => .ok post
  | .error .keyError => .ok (.obj [])
  | .error e => .error e

/-- The body of the `try` block in `delist_post`:
`response["data"]["updatePost"]["post"]["settings"]["delisted"]`. -/
def delistAttempt (r : Json) : Except PyErr Json :=
  match jget r "data" with
  | .error e => .error e
  | .ok d =>
      match jget d "updatePost" with
      | .error e => .error e
      | .ok up =>
          match jget up "post" with
          | .error e => .error e
          | .ok post =>
              match jget post "settings" with
              | .error e => .error e
              | .ok st => jget st "delisted"

/-- `HashnodeAPI.delist_post` response handling: the `try` body with
`KeyError` caught and `False` returned. -/
def delistFromResp (r : Json) : Except PyErr Json :=
  match delistAttempt r with
  | .ok v => .ok v
  | .error .keyError => .ok (.b false)
  | .error e => .error e

/-! ### The run model (`entrypoint.py`)

The remote is a stream of `_execute_request` return values, consumed one
per request in program order.  `RunState` carries the pending stream, the
global `results` accumulator and the trace of requests issued (plus file
parses). -/

/-- An `{id, slug}` record accumulated by `get_all_publication_posts`. -/
structure RemotePost where
  id : Json
  slug : Json
deriving Repr

/-- The global `results` dictionary (the outcome buckets; the
`input_*` echo keys and `debug_data` are not modelled). -/
structure Results where
  added : List Json := []
  modified : List Json := []
  deleted : List RemotePost := []
  errors : List (String × String) := []
deriving Repr

/-- One request issued to the remote, or one file parse. -/
inductive CallRec where
  | fetchPublication
  | parseFile (p : PPath)
  | getPostId (slug : String)
  | getPosts (first : Nat) (after : Json)
  | createPost (payload : Json)
  | updatePost (payload : Json)
  | delistPost (id : Json)
deriving Repr

/-- Mutable run state threaded through the entrypoint. -/
structure RunState where
  responses : List Json
  res : Results := {}
  calls : List CallRec := []

/-- Pop the next transport response, recording the request. -/
def executeRequest (c : CallRec) (st : RunState) : Except PyErr (Json × RunState) :=
  match st.responses with
  | [] => .error .noResponse
  | r :: rest => .ok (r, { st with responses := rest, calls := st.calls ++ [c] })

/-- The error-note message appended by `main` for files outside the posts
directory or without the `.md` suffix. -/
def noteMsg : String :=
  "Note: File is not a markdown file or not in the posts directory. If you want to publish this file, move it to the posts directory."

/-- `handle_post(file_path, api)`: parse and validate the file, look up
the remote id by slug, build the payload, dispatch exactly one
create-or-update, and record the outcome bucket or an error entry. -/
def handlePost (cfg : Config) (filePath : PPath) (publicationId : Json)
    (st : RunState) : Except PyErr RunState :=
  let raw := cfg.fileData filePath
  let st := { st with calls := st.calls ++ [.parseFile filePath] }
  match validateDoc raw.1 raw.2 cfg.now with
  | .error e => .error e
  | .ok pm =>
      match executeRequest (.getPostId pm.slug) st with
      | .error e => .error e
      | .ok (r1, st) =>
          match postIdFromResp r1 with
          | .error e => .error e
          | .ok postId =>
              let content := updateImageUrls cfg filePath raw.2
              let payload := buildPostData cfg filePath pm content publicationId postId
              let call := if jTruthy postId then CallRec.updatePost payload
                          else CallRec.createPost payload
              let opKey := if jTruthy postId then "updatedPost" else "createdPost"
              match executeRequest call st with
              | .error e => .error e
              | .ok (r2, st) =>
                  match extractPostData r2 opKey with
                  | .error e => .error e
                  | .ok post =>
                      if jTruthy post then
                        if jTruthy postId then
                          .ok { st with res := { st.res with modified := st.res.modified ++ [post] } }
                        else
                          .ok { st with res := { st.res with added := st.res.added ++ [post] } }
                      else
                        let act := if jTruthy postId then "update_post" else "create_post"
                        .ok { st with res := { st.res with errors :=
                          st.res.errors ++ [(filePath.toStr, "Failed to " ++ act ++ " post.")] } }

/-- Whether `main` routes a changed file to `handle_post`:
`file_path.is_relative_to(posts_directory) and file_path.suffix == ".md"`. -/
def isPostFile (cfg : Config) (f : PPath) : Bool :=
  f.isRelTo cfg.postsDirectory && (f.suffix == ".md")

/-- One iteration of `main`'s changed-file loop. -/
def processOneFile (cfg : Config) (publicationId : Json) (f : PPath)
    (st : RunState) : Except PyErr RunState :=
  if isPostFile cfg f then handlePost cfg f publicationId st
  else .ok { st with res := { st.res with errors := st.res.errors ++ [(f.toStr, noteMsg)] } }

/-- `main`'s changed-file loop. -/
def processFiles (cfg : Config) (publicationId : Json) :
    List PPath → RunState → Except PyErr RunState
  | [], st => .ok st
  | f :: rest, st =>
      match processOneFile cfg publicationId f st with
      | .error e => .error e
      | .ok st => processFiles cfg publicationId rest st

/-- `{"id": edge["node"]["id"], "slug": edge["node"]["slug"]}` for one
edge of a posts page (uncaught `KeyError` on a malformed edge). -/
def parseEdge (e : Json) : Except PyErr RemotePost :=
  match jget e "node" with
  | .error err => .error err
  | .ok node =>
      match jget node "id" with
      | .error err => .error err
      | .ok i =>
          match jget node "slug" with
          | .error err => .error err
          | .ok s => .ok (RemotePost.mk i s)

/-- Left-to-right consumption of the edge generator by
`all_posts.extend(...)`, raising at the first malformed edge. -/
def parseEdges : List Json → Except PyErr (List RemotePost)
  | [] => .ok []
  | e :: es =>
      match parseEdge e with
      | .error err => .error err
      | .ok p =>
          match parseEdges es with
          | .error err => .error err
          | .ok ps => .ok (p :: ps)

/-- The per-page part of `get_all_publication_posts`:
`posts_data = response["data"]["publication"]["posts"]`, the edge
extension, and the `pageInfo` access, in that evaluation order. -/
def parsePage (r : Json) : Except PyErr (List RemotePost × Json) :=
  match jget r "data" with
  | .error e => .error e
  | .ok d =>
      match jget d "publication" with
      | .error e => .error e
      | .ok pub =>
          match jget pub "posts" with
          | .error e => .error e
          | .ok postsData =>
              match jget postsData "edges" with
              | .error e => .error e
              | .ok edges =>
                  match edges with
                  | .arr edgeList =>
                      match parseEdges edgeList with
                      | .error e => .error e
                      | .ok page =>
                          match jget postsData "pageInfo" with
                          | .error e => .error e
                          | .ok pageInfo => .ok (page, pageInfo)
                  | _ => .error .typeError

/-- `HashnodeAPI.get_all_publication_posts`: cursor pagination with page
size 50, accumulating `{id, slug}` records in encounter order until the
first page with a falsy `hasNextPage`.  Returns the records, the unread
stream and the updated call trace. -/
def getAllPostsGo : List Json → List CallRec → Json → List RemotePost →
    Except PyErr (List RemotePost × List Json × List CallRec)
  | [], _, _, _ => .error .noResponse
  | r :: rest, calls, after, acc =>
      let calls := calls ++ [.getPosts 50 after]
      match parsePage r with
      | .error e => .error e
      | .ok (page, pageInfo) =>
          match jget pageInfo "hasNextPage" with
          | .error e => .error e
          | .ok hnp =>
              if jTruthy hnp then
                match jget pageInfo "endCursor" with
                | .error e => .error e
                | .ok ec => getAllPostsGo rest calls ec (acc ++ page)
              else .ok (acc ++ page, rest, calls)

/-- The slug-set comprehension in `handle_deleted_posts`: each local file
is parsed and validated in full (errors propagate). -/
def localSlugs (cfg : Config) : List PPath → List String → RunState →
    Except PyErr (List String × RunState)
  | [], acc, st => .ok (acc, st)
  | f :: rest, acc, st =>
      let raw := cfg.fileData f
      let st := { st with calls := st.calls ++ [.parseFile f] }
      match validateDoc raw.1 raw.2 cfg.now with
      | .error e => .error e
      | .ok pm => localSlugs cfg rest (acc ++ [pm.slug]) st

/-- Python `post["slug"] not in slugs` (a set of strings): a non-string
slug value is never a member. -/
def slugMem (j : Json) (slugs : List String) : Bool :=
  match j with
  | .s v => slugs.contains v
  | _ => false

/-- The delisting loop of `handle_deleted_posts`: records whose slug is
not local get a `delist_post` call; a truthy `delisted` response appends
the record to the `deleted` bucket, anything else records nothing. -/
def sweepLoop (slugs : List String) : List RemotePost → RunState → Except PyErr RunState
  | [], st => .ok st
  | p :: rest, st =>
      if slugMem p.slug slugs then sweepLoop slugs rest st
      else
        match executeRequest (.delistPost p.id) st with
        | .error e => .error e
        | .ok (r, st) =>
            match delistFromResp r with
            | .error e => .error e
            | .ok v =>
                if jTruthy v then
                  sweepLoop slugs rest
                    { st with res := { st.res with deleted := st.res.deleted ++ [p] } }
                else sweepLoop slugs rest st

/-- `handle_deleted_posts(api)`: enumerate all local documents, list the
full remote publication, delist the remote records with no local slug. -/
def handleDeleted (cfg : Config) (st : RunState) : Except PyErr RunState :=
  if cfg.postsDirExists then
    match localSlugs cfg cfg.localFiles [] st with
    | .error e => .error e
    | .ok (slugs, st) =>
        match getAllPostsGo st.responses st.calls .null [] with
        | .error e => .error e
        | .ok (posts, rem, calls) =>
            sweepLoop slugs posts { st with responses := rem, calls := calls }
  else .error (.valueError ("Directory not found: " ++ cfg.postsDirectory.toStr))

/-- `main()`: resolve the publication id (fatal on failure), process every
changed file, then run the deletion sweep.  The writes to
`GITHUB_OUTPUT` are outside the model. -/
def mainRun (cfg : Config) (responses : List Json) : Except PyErr (Results × List CallRec) :=
  match executeRequest .fetchPublication { responses := responses } with
  | .error e => .error e
  | .ok (r, st) =>
      match pubIdFromResp r with
      | .error e => .error e
      | .ok publicationId =>
          match processFiles cfg publicationId cfg.changedFiles st with
          | .error e => .error e
          | .ok st =>
              match handleDeleted cfg st with
              | .error e => .error e
              | .ok st => .ok (st.res, st.calls)

/-! ### Lemmas about slug normalization -/

theorem char_toNat_ofNat_of_lt {n : Nat} (h : n < 55296) : (Char.ofNat n).toNat = n := by
  have hv : n.isValidChar := Or.inl h
  simp [Char.ofNat, hv, Char.ofNatAux, Char.toNat, UInt32.toNat]

theorem toLower_toLower (c : Char) : c.toLower.toLower = c.toLower := by
  unfold Char.toLower
  by_cases h : c.toNat ≥ 65 ∧ c.toNat ≤ 90
  · rw [if_pos h]
    have h2 : (Char.ofNat (c.toNat + 32)).toNat = c.toNat + 32 :=
      char_toNat_ofNat_of_lt (by omega)
    rw [h2, if_neg (by omega)]
  · rw [if_neg h, if_neg h]

theorem pyWs_hyphen : pyWs '-' = false := by decide

theorem mem_collapseGo {c : Char} :
    ∀ (l : List Char) (b : Bool), c ∈ collapseGo b l → c = '-' ∨ c ∈ l := by
  intro l
  induction l with
  | nil => intro b h; simp [collapseGo] at h
  | cons d ds ih =>
      intro b h
      simp only [collapseGo] at h
      split at h
      · split at h
        · rcases ih true h with h2 | h2
          · exact Or.inl h2
          · exact Or.inr (List.mem_cons_of_mem d h2)
        · rcases List.mem_cons.mp h with h2 | h2
          · exact Or.inl h2
          · rcases ih true h2 with h3 | h3
            · exact Or.inl h3
            · exact Or.inr (List.mem_cons_of_mem d h3)
      · rcases List.mem_cons.mp h with h2 | h2
        · exact Or.inr (h2 ▸ List.mem_cons_self d ds)
        · rcases ih false h2 with h3 | h3
          · exact Or.inl h3
          · exact Or.inr (List.mem_cons_of_mem d h3)

theorem collapseGo_no_ws {c : Char} :
    ∀ (l : List Char) (b : Bool), c ∈ collapseGo b l → pyWs c = false := by
  intro l
  induction l with
  | nil => intro b h; simp [collapseGo] at h
  | cons d ds ih =>
      intro b h
      simp only [collapseGo] at h
      split at h
      · split at h
        · exact ih true h
        · rcases List.mem_cons.mp h with h2 | h2
          · exact h2 ▸ pyWs_hyphen
          · exact ih true h2
      · rcases List.mem_cons.mp h with h2 | h2
        · rename_i hd; exact h2 ▸ (Bool.not_eq_true _).mp hd
        · exact ih false h2

theorem dropWhile_eq_self_of {p : Char → Bool} {l : List Char}
    (h : ∀ c ∈ l, p c = false) : l.dropWhile p = l := by
  cases l with
  | nil => rfl
  | cons c cs => simp [List.dropWhile, h c (List.mem_cons_self c cs)]

theorem stripL_eq_self_of_no_ws {l : List Char}
    (h : ∀ c ∈ l, pyWs c = false) : stripL l = l := by
  unfold stripL
  rw [dropWhile_eq_self_of h, dropWhile_eq_self_of, List.reverse_reverse]
  intro c hc
  exact h c (List.mem_reverse.mp hc)

theorem collapseGo_eq_self_of_no_ws :
    ∀ (b : Bool) (l : List Char), (∀ c ∈ l, pyWs c = false) → collapseGo b l = l := by
  intro b l
  induction l generalizing b with
  | nil => intro _; rfl
  | cons d ds ih =>
      intro h
      have hd : pyWs d = false := h d (List.mem_cons_self d ds)
      simp only [collapseGo, hd, Bool.false_eq_true, if_false]
      rw [ih false (fun c hc => h c (List.mem_cons_of_mem d hc))]

theorem map_toLower_eq_self {l : List Char}
    (h : ∀ c ∈ l, c.toLower = c) : l.map Char.toLower = l := by
  conv_rhs => rw [← List.map_id l]
  exact List.map_congr_left h

/-- Every character of a generated slug is hyphen or a lower-cased
character of the input, and never whitespace. -/
theorem generateSlug_chars (s : String) :
    ∀ c ∈ (generateSlug s).data, pyWs c = false ∧ c.toLower = c := by
  intro c hc
  have hc2 : c ∈ collapseWs ((stripL s.data).map Char.toLower) := hc
  constructor
  · exact collapseGo_no_ws _ false hc2
  · rcases mem_collapseGo _ false hc2 with h1 | h1
    · rw [h1]; decide
    · rcases List.mem_map.mp h1 with ⟨d, _, hd2⟩
      rw [← hd2]; exact toLower_toLower d

theorem generateSlug_idem (s : String) :
    generateSlug (generateSlug s) = generateSlug s := by
  have hchars := generateSlug_chars s
  have hnws : ∀ c ∈ (generateSlug s).data, pyWs c = false := fun c hc => (hchars c hc).1
  have hlow : ∀ c ∈ (generateSlug s).data, c.toLower = c := fun c hc => (hchars c hc).2
  show String.mk (collapseWs (((stripL (generateSlug s).data).map Char.toLower))) = generateSlug s
  rw [stripL_eq_self_of_no_ws hnws, map_toLower_eq_self hlow]
  rw [collapseWs, collapseGo_eq_self_of_no_ws false _ hnws]

/-! ### Claim C8 -/

/-- C8: the stored slug equals `normalize(explicit slug if present, else
title)` where `normalize` trims, lower-cases and collapses whitespace
runs to single hyphens; `normalize` is applied unconditionally even to an
explicit slug, and it is idempotent. -/
theorem C8_slug_normalization :
    (∀ s : String, generateSlug (generateSlug s) = generateSlug s) ∧
    (∀ (m : Meta) (content now : String) (pm : PMeta) (t : String),
      m.title = some t → validateDoc m content now = .ok pm →
      pm.slug = generateSlug (m.slug.getD t)) := by
  constructor
  · exact generateSlug_idem
  · intro m content now pm t ht hv
    simp only [validateDoc, ht] at hv
    split at hv
    · exact absurd hv (by simp)
    · split at hv
      · exact absurd hv (by simp)
      · cases hv; rfl

/-- Witness for C8 at a title with an explicit slug that needs
re-normalization. -/
theorem C8_slug_normalization_witness :
    generateSlug (generateSlug " A  b") = generateSlug " A  b" ∧
    (PMeta.mk "T" none "my-slug" [⟨"", ""⟩] "T0" false false false none none).slug =
      generateSlug (((some " My  Slug " : Option String)).getD "T") :=
  ⟨C8_slug_normalization.1 " A  b",
   C8_slug_normalization.2 { title := some "T", slug := some " My  Slug " } "body" "T0"
     (PMeta.mk "T" none "my-slug" [⟨"", ""⟩] "T0" false false false none none) "T"
     rfl (by decide)⟩

/-! ### Claim C6 -/

/-- C6 counterexample: Python `"".split(",")` is `[""]`, so an empty (or
absent) tags field yields the singleton `[{slug: "", name: ""}]`, not the
empty tag list the claim states. -/
theorem C6_counterexample :
    processTags (.str "") = .ok [⟨"", ""⟩] ∧ processTags (.str "") ≠ .ok [] := by decide

/-- C6 amended: a structured tags value fails validation; a
comma-separated string maps each token in order to
`{slug: lower(trim(token)), name: trim(token)}`; but an empty or absent
tags field yields the one-element list `[{slug: "", name: ""}]` (an empty
string splits into one empty token), not the empty list. -/
theorem C6_amended :
    processTags .structured = .error (.valueError "Tags must be a comma-separated string") ∧
    processTags (.str "a, B ,c") = .ok [⟨"a", "a"⟩, ⟨"b", "B"⟩, ⟨"c", "c"⟩] ∧
    processTags (.str "") = .ok [⟨"", ""⟩] ∧
    (∀ (m : Meta) (content now : String) (pm : PMeta),
      m.tags = none → validateDoc m content now = .ok pm → pm.tags = [⟨"", ""⟩]) := by
  refine ⟨by decide, by decide, by decide, ?_⟩
  intro m content now pm htags hv
  have h0 : processTags (.str "") = .ok [⟨"", ""⟩] := by decide
  simp only [validateDoc, htags, Option.getD_none, h0] at hv
  split at hv
  · exact absurd hv (by simp)
  · split at hv
    · exact absurd hv (by simp)
    · cases hv; rfl

/-- Witness for C6 at a metadata with no tags field. -/
theorem C6_amended_witness :
    processTags .structured = .error (.valueError "Tags must be a comma-separated string") ∧
    (PMeta.mk "T" none "t" [⟨"", ""⟩] "T0" false false false none none).tags = [⟨"", ""⟩] :=
  ⟨C6_amended.1,
   C6_amended.2.2.2 { title := some "T" } "body" "T0"
     (PMeta.mk "T" none "t" [⟨"", ""⟩] "T0" false false false none none) rfl (by decide)⟩

/-! ### Claim C7 -/

/-- C7 counterexample: a document whose metadata contains a title but
whose body is blank fails validation (`Content cannot be empty`), so
validation does not succeed "regardless of the body". -/
theorem C7_counterexample :
    validateDoc { title := some "T" } "  " "T0" =
      .error (.valueError "Content cannot be empty") := by decide

/-- C7 amended: validation first requires a non-blank body; given a
non-blank body it fails with the missing-field error exactly when the
title is absent; given a non-blank body and a title it succeeds iff the
tags field, when present, is a string. -/
theorem C7_amended (m : Meta) (content now : String) :
    (pyStrip content = "" →
      validateDoc m content now = .error (.valueError "Content cannot be empty")) ∧
    (pyStrip content ≠ "" → m.title = none →
      validateDoc m content now = .error (.valueError "Missing required frontmatter field: title")) ∧
    (pyStrip content ≠ "" → m.title.isSome →
      ((∃ pm, validateDoc m content now = .ok pm) ↔ m.tags ≠ some .structured)) := by
  refine ⟨?_, ?_, ?_⟩
  · intro hc
    simp only [validateDoc, hc]
    simp
  · intro hc ht
    simp only [validateDoc, ht]
    rw [if_neg (by simpa using hc)]
  · intro hc ht
    rcases Option.isSome_iff_exists.mp ht with ⟨t, htt⟩
    constructor
    · rintro ⟨pm, hpm⟩ htags
      simp only [validateDoc, htt, htags] at hpm
      rw [if_neg (by simpa using hc)] at hpm
      have : processTags (Option.getD (some TagsVal.structured) (.str "")) =
          .error (.valueError "Tags must be a comma-separated string") := by decide
      rw [this] at hpm
      exact absurd hpm (by simp)
    · intro htags
      have hstr : ∃ s, m.tags.getD (.str "") = .str s := by
        cases hmt : m.tags with
        | none => exact ⟨"", rfl⟩
        | some tv =>
            cases tv with
            | str s => exact ⟨s, rfl⟩
            | structured => exact absurd hmt htags
      rcases hstr with ⟨s, hs⟩
      simp only [validateDoc, htt, hs]
      rw [if_neg (by simpa using hc)]
      exact ⟨_, rfl⟩

/-- Witness for C7: blank body fails, missing title fails, title plus
non-blank body succeeds. -/
theorem C7_amended_witness :
    validateDoc { title := some "T" } " " "T0" =
      .error (.valueError "Content cannot be empty") ∧
    validateDoc {} "body" "T0" =
      .error (.valueError "Missing required frontmatter field: title") ∧
    (∃ pm, validateDoc { title := some "T" } "body" "T0" = .ok pm) :=
  ⟨(C7_amended { title := some "T" } " " "T0").1 (by decide),
   (C7_amended {} "body" "T0").2.1 (by decide) rfl,
   ((C7_amended { title := some "T" } "body" "T0").2.2 (by decide) rfl).mpr (by decide)⟩

/-! ### Claim C2 -/

/-- The create-payload shape required by the claim: `slugOverridden=true`,
`enableTableOfContent` and `delisted` under `settings`, a top-level
`disableComments`, and neither an `id` nor the update-style settings key. -/
def createShape (p : Json) (pm : PMeta) : Prop :=
  ∃ settings, jget p "settings" = .ok settings ∧
    jget settings "slugOverridden" = .ok (.b true) ∧
    jget settings "enableTableOfContent" = .ok (.b pm.enableTableOfContents) ∧
    jget settings "delisted" = .ok (.b pm.delisted) ∧
    jget settings "isTableOfContentEnabled" = .error .keyError ∧
    jget p "disableComments" = .ok (.b pm.disableComments) ∧
    jget p "id" = .error .keyError

/-- The update-payload shape required by the claim:
`isTableOfContentEnabled`, `delisted` and `disableComments` all under
`settings`, the `id` present, `slugOverridden` and the top-level
`disableComments` absent. -/
def updateShape (p : Json) (pm : PMeta) (pid : Json) : Prop :=
  ∃ settings, jget p "settings" = .ok settings ∧
    jget settings "isTableOfContentEnabled" = .ok (.b pm.enableTableOfContents) ∧
    jget settings "delisted" = .ok (.b pm.delisted) ∧
    jget settings "disableComments" = .ok (.b pm.disableComments) ∧
    jget settings "slugOverridden" = .error .keyError ∧
    jget p "id" = .ok pid ∧
    jget p "disableComments" = .error .keyError

theorem jTruthy_null : jTruthy .null = false := rfl

theorem buildPostData_createShape (cfg : Config) (f : PPath) (pm : PMeta)
    (content : String) (pubId : Json) :
    createShape (buildPostData cfg f pm content pubId .null) pm := by
  refine ⟨_, rfl, ?_, ?_, ?_, ?_, ?_, ?_⟩ <;> rfl

theorem buildPostData_updateShape (cfg : Config) (f : PPath) (pm : PMeta)
    (content : String) (pubId : Json) (pid : Json) (hp : jTruthy pid = true) :
    updateShape (buildPostData cfg f pm content pubId pid) pm pid := by
  unfold buildPostData
  rw [if_pos hp]
  exact ⟨_, rfl, rfl, rfl, rfl, rfl, rfl, rfl⟩

/-- C2: with no existing remote id the per-file phase issues exactly one
create call and zero update calls, and with an id exactly one update and
zero creates; the create payload has `slugOverridden=true`,
`enableTableOfContent`/`delisted` under `settings` and a top-level
`disableComments`, while the update payload has
`isTableOfContentEnabled`/`delisted`/`disableComments` under `settings`,
carries the `id` and omits `slugOverridden`. -/
theorem C2_create_update_dispatch
    (cfg : Config) (f : PPath) (pubId : Json) (st : RunState)
    (m : Meta) (body : String) (pm : PMeta) (r1 r2 : Json) (rest : List Json)
    (hfd : cfg.fileData f = (m, body))
    (hv : validateDoc m body cfg.now = .ok pm)
    (hresp : st.responses = r1 :: r2 :: rest) :
    (postIdFromResp r1 = .ok .null →
      ∀ post, extractPostData r2 "createdPost" = .ok post →
      ∃ res2, handlePost cfg f pubId st =
          .ok ⟨rest, res2, st.calls ++ [.parseFile f, .getPostId pm.slug,
            .createPost (buildPostData cfg f pm (updateImageUrls cfg f body) pubId .null)]⟩ ∧
        createShape (buildPostData cfg f pm (updateImageUrls cfg f body) pubId .null) pm) ∧
    (∀ pid, postIdFromResp r1 = .ok pid → jTruthy pid = true →
      ∀ post, extractPostData r2 "updatedPost" = .ok post →
      ∃ res2, handlePost cfg f pubId st =
          .ok ⟨rest, res2, st.calls ++ [.parseFile f, .getPostId pm.slug,
            .updatePost (buildPostData cfg f pm (updateImageUrls cfg f body) pubId pid)]⟩ ∧
        updateShape (buildPostData cfg f pm (updateImageUrls cfg f body) pubId pid) pm pid) := by
  constructor
  · intro hpid post hext
    refine ⟨?_, ?_, buildPostData_createShape cfg f pm (updateImageUrls cfg f body) pubId⟩
    · exact if jTruthy post then
        { st.res with added := st.res.added ++ [post] }
      else
        { st.res with errors := st.res.errors ++ [(f.toStr, "Failed to create_post post.")] }
    · by_cases hp : jTruthy post = true
      · simp [handlePost, hfd, hv, executeRequest, hresp, hpid, hext, hp, jTruthy_null]
      · simp only [Bool.not_eq_true] at hp
        simp [handlePost, hfd, hv, executeRequest, hresp, hpid, hext, hp, jTruthy_null]
  · intro pid hpid hptruthy post hext
    refine ⟨?_, ?_,
      buildPostData_updateShape cfg f pm (updateImageUrls cfg f body) pubId pid hptruthy⟩
    · exact if jTruthy post then
        { st.res with modified := st.res.modified ++ [post] }
      else
        { st.res with errors := st.res.errors ++ [(f.toStr, "Failed to update_post post.")] }
    · by_cases hp : jTruthy post = true
      · simp [handlePost, hfd, hv, executeRequest, hresp, hpid, hext, hptruthy, hp]
      · simp only [Bool.not_eq_true] at hp
        simp [handlePost, hfd, hv, executeRequest, hresp, hpid, hext, hptruthy, hp]

/-! ### Concrete fixtures -/

/-- A successful publication-resolution response. -/
def exPubResp : Json := .obj [("data", .obj [("publication", .obj [("id", .s "pub1")])])]

/-- A slug-lookup response with no matching post. -/
def exLookupNone : Json := .obj [("data", .obj [("publication", .obj [])])]

/-- A slug-lookup response carrying an existing post id. -/
def exLookupFound : Json :=
  .obj [("data", .obj [("publication", .obj [("post", .obj [("id", .s "post1")])])])]

/-- A create-mutation response shaped so that `_extract_post_data`
succeeds (under the key the code computes). -/
def exCreatedOk : Json :=
  .obj [("data", .obj [("createdPost", .obj [("post",
    .obj [("id", .s "p1"), ("title", .s "T"), ("slug", .s "t")])])])]

/-- An update-mutation response shaped so that `_extract_post_data`
succeeds (under the key the code computes). -/
def exUpdatedOk : Json :=
  .obj [("data", .obj [("updatedPost", .obj [("post",
    .obj [("id", .s "p1"), ("title", .s "T"), ("slug", .s "t")])])])]

/-- A successful delist response. -/
def exDelistOk : Json :=
  .obj [("data", .obj [("updatePost", .obj [("post",
    .obj [("id", .s "p1"), ("settings", .obj [("delisted", .b true)])])])])]

/-- One raw metadata block with only a title. -/
def exMeta : Meta := { title := some "T" }

/-- The processed metadata of `exMeta` with body `"body"` at time `"T0"`. -/
def exPM : PMeta := ⟨"T", none, "t", [⟨"", ""⟩], "T0", false, false, false, none, none⟩

/-- A one-file configuration. -/
def exCfg : Config :=
  { postsDirectory := ⟨["posts"]⟩
    changedFiles := [⟨["posts", "a.md"]⟩]
    localFiles := []
    postsDirExists := true
    fileData := fun _ => (exMeta, "body")
    now := "T0"
    repository := "own/repo"
    branch := "main" }

example : validateDoc exMeta "body" "T0" = .ok exPM := by decide

/-- Witness for C2: one create run and one update run on concrete
responses. -/
theorem C2_create_update_dispatch_witness :
    (∃ st2, handlePost exCfg ⟨["posts", "a.md"]⟩ (.s "pub1")
        { responses := [exLookupNone, exCreatedOk] } = .ok st2) ∧
    (∃ st2, handlePost exCfg ⟨["posts", "a.md"]⟩ (.s "pub1")
        { responses := [exLookupFound, exUpdatedOk] } = .ok st2) := by
  constructor
  · obtain ⟨res2, h, -⟩ :=
      (C2_create_update_dispatch exCfg ⟨["posts", "a.md"]⟩ (.s "pub1")
        { responses := [exLookupNone, exCreatedOk] } exMeta "body" exPM
        exLookupNone exCreatedOk [] rfl (by decide) rfl).1 rfl _ rfl
    exact ⟨_, h⟩
  · obtain ⟨res2, h, -⟩ :=
      (C2_create_update_dispatch exCfg ⟨["posts", "a.md"]⟩ (.s "pub1")
        { responses := [exLookupFound, exUpdatedOk] } exMeta "body" exPM
        exLookupFound exUpdatedOk [] rfl (by decide) rfl).2 (.s "post1") rfl rfl _ rfl
    exact ⟨_, h⟩

/-! ### Claim C3 -/

/-- C3 counterexample: local slugs `["a"]`, one remote record with slug
`"c"`, and a failing delist response (the `{}` transport-failure value).
The delist call is issued and fails, yet the final state records no
outcome for the record at all — no `Delisted` entry and no
`Skipped`/error entry — contradicting the claim that every
delisted-candidate record's outcome is recorded. -/
theorem C3_counterexample :
    sweepLoop ["a"] [⟨.s "id1", .s "c"⟩] { responses := [.obj []] } =
      .ok { responses := [], res := {}, calls := [.delistPost (.s "id1")] } := rfl

theorem sweepLoop_spec (slugs : List String) :
    ∀ (posts : List RemotePost) (st st2 : RunState),
      sweepLoop slugs posts st = .ok st2 →
      st2.calls = st.calls ++
        ((posts.filter (fun p => !slugMem p.slug slugs)).map fun p => CallRec.delistPost p.id) ∧
      st2.res.errors = st.res.errors ∧
      st2.res.added = st.res.added ∧
      st2.res.modified = st.res.modified ∧
      ∃ tail, st2.res.deleted = st.res.deleted ++ tail ∧
        tail.Sublist (posts.filter fun p => !slugMem p.slug slugs) := by
  intro posts
  induction posts with
  | nil =>
      intro st st2 h
      cases h
      exact ⟨by simp, rfl, rfl, rfl, [], by simp, by simp⟩
  | cons p rest ih =>
      intro st st2 h
      by_cases hmem : slugMem p.slug slugs = true
      · rw [sweepLoop, if_pos hmem] at h
        have := ih st st2 h
        simpa [List.filter_cons, hmem] using this
      · rw [sweepLoop, if_neg hmem] at h
        simp only [Bool.not_eq_true] at hmem
        cases hresp : st.responses with
        | nil => rw [executeRequest, hresp] at h; exact absurd h (by simp)
        | cons r rrest =>
            rw [executeRequest, hresp] at h
            simp only at h
            cases hd : delistFromResp r with
            | error e => rw [hd] at h; exact absurd h (by simp)
            | ok v =>
                rw [hd] at h
                simp only at h
                by_cases hv : jTruthy v = true
                · rw [if_pos hv] at h
                  obtain ⟨h1, h2, h3, h4, tail, h5, h6⟩ := ih _ _ h
                  refine ⟨?_, by simpa using h2, by simpa using h3, by simpa using h4,
                    p :: tail, ?_, ?_⟩
                  · simp only at h1
                    rw [h1]
                    simp [List.filter_cons, hmem]
                  · simp only at h5
                    rw [h5]
                    simp
                  · simp only [List.filter_cons, hmem]
                    exact List.Sublist.cons₂ p h6
                · rw [if_neg hv] at h
                  obtain ⟨h1, h2, h3, h4, tail, h5, h6⟩ := ih _ _ h
                  refine ⟨?_, by simpa using h2, by simpa using h3, by simpa using h4,
                    tail, by simpa using h5, ?_⟩
                  · simp only at h1
                    rw [h1]
                    simp [List.filter_cons, hmem]
                  · simp only [List.filter_cons, hmem]
                    exact List.Sublist.cons p h6

/-- The delist outcome recorded for one candidate record paired with the
response its delist call consumed: the record when the response's
`delisted` value is truthy, nothing otherwise. -/
def delistOutcome (pr : RemotePost × Json) : Option RemotePost :=
  match delistFromResp pr.2 with
  | .ok v => if jTruthy v then some pr.1 else none
  | .error _ => none

/-- The sweep consumes one response per delist candidate in candidate
order, and the `deleted` bucket gains exactly the candidates whose
paired response reported a truthy `delisted`, in that order. -/
theorem sweepLoop_deleted_spec (slugs : List String) :
    ∀ (posts : List RemotePost) (st st2 : RunState),
      sweepLoop slugs posts st = .ok st2 →
      st2.res.deleted = st.res.deleted ++
        ((posts.filter fun p => !slugMem p.slug slugs).zip st.responses).filterMap
          delistOutcome := by
  intro posts
  induction posts with
  | nil =>
      intro st st2 h
      cases h
      simp
  | cons p rest ih =>
      intro st st2 h
      by_cases hmem : slugMem p.slug slugs = true
      · rw [sweepLoop, if_pos hmem] at h
        have h5 := ih st st2 h
        simpa [List.filter_cons, hmem] using h5
      · rw [sweepLoop, if_neg hmem] at h
        simp only [Bool.not_eq_true] at hmem
        cases hresp : st.responses with
        | nil => rw [executeRequest, hresp] at h; exact absurd h (by simp)
        | cons r rrest =>
            rw [executeRequest, hresp] at h
            simp only at h
            cases hd : delistFromResp r with
            | error e => rw [hd] at h; exact absurd h (by simp)
            | ok v =>
                rw [hd] at h
                simp only at h
                by_cases hv : jTruthy v = true
                · rw [if_pos hv] at h
                  have h5 := ih _ _ h
                  simp only at h5
                  rw [h5]
                  simp [List.filter_cons, hmem, delistOutcome, hd, hv]
                · rw [if_neg hv] at h
                  have h5 := ih _ _ h
                  simp only at h5
                  rw [h5]
                  simp only [Bool.not_eq_true] at hv
                  simp [List.filter_cons, hmem, delistOutcome, hd, hv]

/-- C3 amended: the sweep issues a delist call for exactly the records
whose slug is not local, in listing order; records with a local slug get
no call; each candidate's delist call consumes the next response, and a
truthy `delisted` response appends exactly that record to the `deleted`
bucket while any other response appends nothing for it; a failed delist
produces no outcome entry anywhere (the errors, added and modified
buckets are unchanged by the whole sweep). -/
theorem C3_sweep_behavior (slugs : List String) :
    ∀ (posts : List RemotePost) (st st2 : RunState),
      sweepLoop slugs posts st = .ok st2 →
      st2.calls = st.calls ++
        ((posts.filter (fun p => !slugMem p.slug slugs)).map fun p => CallRec.delistPost p.id) ∧
      st2.res.errors = st.res.errors ∧
      st2.res.added = st.res.added ∧
      st2.res.modified = st.res.modified ∧
      st2.res.deleted = st.res.deleted ++
        ((posts.filter fun p => !slugMem p.slug slugs).zip st.responses).filterMap
          delistOutcome := by
  intro posts st st2 h
  obtain ⟨h1, h2, h3, h4, -⟩ := sweepLoop_spec slugs posts st st2 h
  exact ⟨h1, h2, h3, h4, sweepLoop_deleted_spec slugs posts st st2 h⟩

/-- The remote listing of the C3 witness run: one record with a local
slug, one whose delist succeeds, one whose delist fails. -/
def c3posts : List RemotePost :=
  [⟨.s "i1", .s "a"⟩, ⟨.s "i2", .s "c"⟩, ⟨.s "i3", .s "d"⟩]

/-- The initial state of the C3 witness run: a successful delist
response followed by the `{}` transport-failure value. -/
def c3st : RunState := { responses := [exDelistOk, Json.obj []] }

/-- The final state of the C3 witness run: both candidates called, only
the successful one recorded, no error entry. -/
def c3st2 : RunState :=
  { responses := [], res := { deleted := [⟨.s "i2", .s "c"⟩] },
    calls := [.delistPost (.s "i2"), .delistPost (.s "i3")] }

/-- Witness for C3's amended statement: local slugs `{a, b}`, remote
slugs `{a, c, d}`; `c`'s delist succeeds and is recorded, `d`'s delist
fails and leaves no outcome entry. -/
theorem C3_sweep_behavior_witness :
    sweepLoop ["a", "b"] c3posts c3st = .ok c3st2 ∧
    c3st2.calls = c3st.calls ++
      ((c3posts.filter (fun p => !slugMem p.slug ["a", "b"])).map
        fun p => CallRec.delistPost p.id) ∧
    c3st2.res.errors = c3st.res.errors ∧
    c3st2.res.deleted = c3st.res.deleted ++
      ((c3posts.filter fun p => !slugMem p.slug ["a", "b"]).zip c3st.responses).filterMap
        delistOutcome := by
  have h : sweepLoop ["a", "b"] c3posts c3st = .ok c3st2 := rfl
  obtain ⟨h1, h2, -, -, h5⟩ := C3_sweep_behavior ["a", "b"] c3posts c3st c3st2 h
  exact ⟨h, h1, h2, h5⟩

/-! ### Claim C5 -/

/-- The edge encoding of one record in a posts-page response. -/
def edgeOf (p : RemotePost) : Json :=
  .obj [("node", .obj [("id", p.id), ("slug", p.slug)])]

/-- A well-formed posts-page response. -/
def mkPageResp (recs : List RemotePost) (hasNext : Bool) (ec : Json) : Json :=
  .obj [("data", .obj [("publication", .obj [("posts", .obj [
    ("edges", .arr (recs.map edgeOf)),
    ("pageInfo", .obj [("endCursor", ec), ("hasNextPage", .b hasNext)])])])])]

/-- The page-request chain demanded of the walk: one request of size 50
per page, each `after` cursor equal to the previous page's `endCursor`. -/
def cursorChain (after : Json) : List (List RemotePost × Json) → List CallRec
  | [] => [.getPosts 50 after]
  | (_, c) :: rest => .getPosts 50 after :: cursorChain c rest

theorem parseEdges_map (recs : List RemotePost) :
    parseEdges (recs.map edgeOf) = .ok recs := by
  induction recs with
  | nil => rfl
  | cons p ps ih =>
      rw [List.map_cons, parseEdges]
      have h1 : parseEdge (edgeOf p) = .ok p := rfl
      rw [h1, ih]

theorem parsePage_mkPageResp (recs : List RemotePost) (hasNext : Bool) (ec : Json) :
    parsePage (mkPageResp recs hasNext ec) =
      .ok (recs, .obj [("endCursor", ec), ("hasNextPage", .b hasNext)]) := by
  have h : parsePage (mkPageResp recs hasNext ec) =
      (match parseEdges (recs.map edgeOf) with
       | .error e => .error e
       | .ok page =>
           .ok (page, Json.obj [("endCursor", ec), ("hasNextPage", .b hasNext)])) := rfl
  rw [h, parseEdges_map]

/-- C5: the listing walk requests pages of fixed size 50, follows the
previous page's `endCursor`, accumulates records in encounter order,
stops at the first page with `hasNextPage=false` (leaving the rest of
the stream untouched); and a transport failure (`{}`) on any page makes
the walk raise a `KeyError` instead of returning the partial
accumulation, which `handle_deleted_posts` propagates to its caller —
distinguishable from a successful empty listing. -/
theorem C5_pagination :
    (∀ (front : List (List RemotePost × Json)) (lastRecs : List RemotePost)
        (extra : List Json) (calls : List CallRec) (after : Json) (acc : List RemotePost),
      getAllPostsGo
          ((front.map fun pc => mkPageResp pc.1 true pc.2) ++
            [mkPageResp lastRecs false .null] ++ extra) calls after acc =
        .ok (acc ++ (front.map Prod.fst).flatten ++ lastRecs, extra,
          calls ++ cursorChain after front)) ∧
    (∀ (front : List (List RemotePost × Json)) (extra : List Json)
        (calls : List CallRec) (after : Json) (acc : List RemotePost),
      getAllPostsGo
          ((front.map fun pc => mkPageResp pc.1 true pc.2) ++ [Json.obj []] ++ extra)
          calls after acc = .error .keyError) ∧
    (∀ (cfg : Config) (st : RunState) (slugs : List String) (st1 : RunState) (e : PyErr),
      cfg.postsDirExists = true →
      localSlugs cfg cfg.localFiles [] st = .ok (slugs, st1) →
      getAllPostsGo st1.responses st1.calls .null [] = .error e →
      handleDeleted cfg st = .error e) := by
  have hstep : ∀ (page : List RemotePost) (cur : Json) (more : List Json)
      (calls : List CallRec) (after : Json) (acc : List RemotePost),
      getAllPostsGo (mkPageResp page true cur :: more) calls after acc =
        getAllPostsGo more (calls ++ [.getPosts 50 after]) cur (acc ++ page) := by
    intro page cur more calls after acc
    simp only [getAllPostsGo, parsePage_mkPageResp]
    rfl
  refine ⟨?_, ?_, ?_⟩
  · intro front
    induction front with
    | nil =>
        intro lastRecs extra calls after acc
        simp only [List.map_nil, List.nil_append, List.cons_append]
        have hlast : getAllPostsGo (mkPageResp lastRecs false .null :: extra) calls after acc =
            .ok (acc ++ lastRecs, extra, calls ++ [.getPosts 50 after]) := by
          simp only [getAllPostsGo, parsePage_mkPageResp]
          rfl
        rw [hlast]
        simp [cursorChain]
    | cons pc rest ih =>
        intro lastRecs extra calls after acc
        simp only [List.map_cons, List.cons_append]
        rw [hstep, ih]
        simp [cursorChain, List.append_assoc]
  · intro front
    induction front with
    | nil =>
        intro extra calls after acc
        simp only [List.map_nil, List.nil_append, List.cons_append]
        rfl
    | cons pc rest ih =>
        intro extra calls after acc
        simp only [List.map_cons, List.cons_append]
        rw [hstep]
        exact ih extra (calls ++ [.getPosts 50 after]) pc.2 (acc ++ pc.1)
  · intro cfg st slugs st1 e hdir hslugs hwalk
    simp only [handleDeleted, hdir, if_true, hslugs, hwalk]

/-- Witness for C5: a two-page walk whose records accumulate in order, a
walk failing on the second page, and the failure propagating out of the
deletion sweep. -/
theorem C5_pagination_witness :
    getAllPostsGo
        [mkPageResp [⟨.s "i1", .s "a"⟩] true (.s "cur1"),
         mkPageResp [⟨.s "i2", .s "b"⟩] false .null] [] .null [] =
      .ok ([⟨.s "i1", .s "a"⟩, ⟨.s "i2", .s "b"⟩], [],
        [.getPosts 50 .null, .getPosts 50 (.s "cur1")]) ∧
    getAllPostsGo
        [mkPageResp [⟨.s "i1", .s "a"⟩] true (.s "cur1"), Json.obj []] [] .null [] =
      .error .keyError ∧
    handleDeleted exCfg { responses := [Json.obj []] } = .error .keyError := by
  refine ⟨?_, ?_, ?_⟩
  · have h := C5_pagination.1 [([⟨.s "i1", .s "a"⟩], .s "cur1")] [⟨.s "i2", .s "b"⟩]
      [] [] .null []
    simpa [cursorChain] using h
  · have h := C5_pagination.2.1 [([⟨.s "i1", .s "a"⟩], .s "cur1")] [] [] .null []
    simpa using h
  · exact C5_pagination.2.2 exCfg { responses := [Json.obj []] } []
      { responses := [Json.obj []] } .keyError rfl rfl rfl

/-! ### Claim C4 -/

/-- C4 counterexample: on the `{}` body that `_execute_request` returns
for any non-2xx HTTP status, the find-by-slug operation raises a
`KeyError` into its caller instead of returning a structured failure
outcome, refuting the claim that no RemoteClient operation throws on an
ordinary transport failure. -/
theorem C4_counterexample : postIdFromResp (Json.obj []) = .error .keyError := rfl

/-- C4 amended: on a response body with no `"data"` key (in particular
the `{}` value produced for every non-2xx status), create, update and
delist swallow the failure into unstructured sentinel results (the empty
dict, `False`) without throwing, but resolve-publication, find-by-slug
and list-all raise a `KeyError` into the caller; no operation returns a
structured failure record. -/
theorem C4_failure_channels (r : Json) (h : jget r "data" = .error .keyError) :
    extractPostData r "createdPost" = .ok (.obj []) ∧
    extractPostData r "updatedPost" = .ok (.obj []) ∧
    delistFromResp r = .ok (.b false) ∧
    postIdFromResp r = .error .keyError ∧
    pubIdFromResp r = .error .keyError ∧
    (∀ (more : List Json) (calls : List CallRec) (after : Json) (acc : List RemotePost),
      getAllPostsGo (r :: more) calls after acc = .error .keyError) := by
  refine ⟨?_, ?_, ?_, ?_, ?_, ?_⟩
  · simp [extractPostData, extractPostAttempt, h]
  · simp [extractPostData, extractPostAttempt, h]
  · simp [delistFromResp, delistAttempt, h]
  · simp [postIdFromResp, h]
  · simp [pubIdFromResp, h]
  · intro more calls after acc
    simp [getAllPostsGo, parsePage, h]

/-- Witness for C4's amended statement at the concrete `{}` body. -/
theorem C4_failure_channels_witness :
    extractPostData (Json.obj []) "createdPost" = .ok (.obj []) ∧
    delistFromResp (Json.obj []) = .ok (.b false) ∧
    postIdFromResp (Json.obj []) = .error .keyError :=
  ⟨(C4_failure_channels (Json.obj []) rfl).1,
   (C4_failure_channels (Json.obj []) rfl).2.2.1,
   (C4_failure_channels (Json.obj []) rfl).2.2.2.1⟩

/-! ### Claim C1 -/

/-- Configuration for the C1 counterexample: two changed markdown files
under the posts directory, the first of which fails validation (its
frontmatter has no title). -/
def c1Cfg : Config :=
  { postsDirectory := ⟨["posts"]⟩
    changedFiles := [⟨["posts", "bad.md"]⟩, ⟨["posts", "good.md"]⟩]
    localFiles := []
    postsDirExists := true
    fileData := fun p => if p = ⟨["posts", "bad.md"]⟩ then ({}, "body") else (exMeta, "body")
    now := "T0"
    repository := "own/repo"
    branch := "main" }

/-- C1 counterexample: after the publication id resolves, the first
file's validation error is not converted into an outcome entry — the
whole run aborts with the raised `ValueError`, the second file is never
processed and the deletion sweep never executes (no outcome list is
produced at all). -/
theorem C1_counterexample :
    mainRun c1Cfg [exPubResp] =
      .error (.valueError "Missing required frontmatter field: title") := rfl

/-- C1 amended: a validation error or a slug-lookup failure raised while
processing a file is not caught anywhere — it propagates out of
`handle_post` and aborts the run, skipping the remaining files (and with
them the deletion sweep); only a failed create/update mutation (the
empty response map) is converted into an error outcome entry for that
file, after which the run continues. -/
theorem C1_error_propagation :
    (∀ (cfg : Config) (f : PPath) (pubId : Json) (st : RunState)
        (m : Meta) (body : String) (e : PyErr),
      cfg.fileData f = (m, body) → validateDoc m body cfg.now = .error e →
      handlePost cfg f pubId st = .error e) ∧
    (∀ (cfg : Config) (f : PPath) (pubId : Json) (st : RunState) (m : Meta) (body : String)
        (pm : PMeta) (r1 : Json) (rest : List Json) (e : PyErr),
      cfg.fileData f = (m, body) → validateDoc m body cfg.now = .ok pm →
      st.responses = r1 :: rest → postIdFromResp r1 = .error e →
      handlePost cfg f pubId st = .error e) ∧
    (∀ (cfg : Config) (pubId : Json) (f : PPath) (rest : List PPath) (st : RunState) (e : PyErr),
      processOneFile cfg pubId f st = .error e →
      processFiles cfg pubId (f :: rest) st = .error e) ∧
    (∀ (cfg : Config) (f : PPath) (pubId : Json) (st : RunState) (m : Meta) (body : String)
        (pm : PMeta) (r1 : Json) (rest : List Json),
      cfg.fileData f = (m, body) → validateDoc m body cfg.now = .ok pm →
      st.responses = r1 :: Json.obj [] :: rest → postIdFromResp r1 = .ok .null →
      handlePost cfg f pubId st = .ok
        { responses := rest,
          res := { st.res with errors :=
            st.res.errors ++ [(f.toStr, "Failed to create_post post.")] },
          calls := st.calls ++ [.parseFile f, .getPostId pm.slug,
            .createPost (buildPostData cfg f pm (updateImageUrls cfg f body) pubId .null)] }) := by
  refine ⟨?_, ?_, ?_, ?_⟩
  · intro cfg f pubId st m body e hfd hv
    simp only [handlePost, hfd, hv]
  · intro cfg f pubId st m body pm r1 rest e hfd hv hresp hpid
    simp only [handlePost, hfd, hv, executeRequest, hresp, hpid]
  · intro cfg pubId f rest st e h
    simp only [processFiles, h]
  · intro cfg f pubId st m body pm r1 rest hfd hv hresp hpid
    have hext : extractPostData (Json.obj []) "createdPost" = .ok (.obj []) := rfl
    simp [handlePost, hfd, hv, executeRequest, hresp, hpid, hext, jTruthy_null, jTruthy]

/-- Witness for C1's amended statement: a missing-title file aborts the
per-file phase, a lookup failure aborts it, the abort propagates through
the changed-file loop, while a failed create is recorded as an error
entry and the run goes on. -/
theorem C1_error_propagation_witness :
    handlePost c1Cfg ⟨["posts", "bad.md"]⟩ (.s "pub1") { responses := [] } =
      .error (.valueError "Missing required frontmatter field: title") ∧
    handlePost exCfg ⟨["posts", "a.md"]⟩ (.s "pub1")
        { responses := [Json.obj []] } = .error .keyError ∧
    processFiles c1Cfg (.s "pub1") [⟨["posts", "bad.md"]⟩, ⟨["posts", "good.md"]⟩]
        { responses := [] } =
      .error (.valueError "Missing required frontmatter field: title") ∧
    handlePost exCfg ⟨["posts", "a.md"]⟩ (.s "pub1")
        { responses := [exLookupNone, Json.obj []] } = .ok
      { responses := [],
        res := { errors := [("posts/a.md", "Failed to create_post post.")] },
        calls := [.parseFile ⟨["posts", "a.md"]⟩, .getPostId "t",
          .createPost (buildPostData exCfg ⟨["posts", "a.md"]⟩ exPM
            (updateImageUrls exCfg ⟨["posts", "a.md"]⟩ "body") (.s "pub1") .null)] } := by
  refine ⟨?_, ?_, ?_, ?_⟩
  · exact C1_error_propagation.1 c1Cfg ⟨["posts", "bad.md"]⟩ (.s "pub1")
      { responses := [] } {} "body" _ rfl (by decide)
  · exact C1_error_propagation.2.1 exCfg ⟨["posts", "a.md"]⟩ (.s "pub1")
      { responses := [Json.obj []] } exMeta "body" exPM (Json.obj []) [] .keyError
      rfl (by decide) rfl rfl
  · exact C1_error_propagation.2.2.1 c1Cfg (.s "pub1") ⟨["posts", "bad.md"]⟩
      [⟨["posts", "good.md"]⟩] { responses := [] } _ rfl
  · have h := C1_error_propagation.2.2.2 exCfg ⟨["posts", "a.md"]⟩ (.s "pub1")
      { responses := [exLookupNone, Json.obj []] } exMeta "body" exPM exLookupNone []
      rfl (by decide) rfl rfl
    simpa using h

/-! ### Claim C9 -/

theorem searchPath_spec :
    ∀ (l acc p rest : List Char), searchPath acc l = some (p, rest) →
      ∃ mid, p = acc.reverse ++ mid ∧ l = mid ++ ')' :: rest ∧ '\n' ∉ mid := by
  intro l
  induction l with
  | nil => intro acc p rest h; simp [searchPath] at h
  | cons c cs ih =>
      intro acc p rest h
      rw [searchPath] at h
      by_cases hc : (c == ')') = true
      · rw [if_pos hc] at h
        cases h
        refine ⟨[], by simp, ?_, by simp⟩
        have hc2 : c = ')' := by simpa using hc
        rw [hc2]
        simp
      · rw [if_neg (by simpa using hc)] at h
        by_cases hn : (c == '\n') = true
        · rw [if_pos hn] at h
          exact absurd h (by simp)
        · rw [if_neg (by simpa using hn)] at h
          obtain ⟨mid, h1, h2, h3⟩ := ih (c :: acc) p rest h
          refine ⟨c :: mid, ?_, ?_, ?_⟩
          · rw [h1]; simp
          · rw [h2]; simp
          · intro hm
            rcases List.mem_cons.mp hm with h4 | h4
            · rw [h4] at hn; simp at hn
            · exact h3 h4

theorem tryHere_spec {acc a p rest : List Char} {c : Char} {cs : List Char}
    (h : tryHere acc c cs = some (a, p, rest)) :
    a = acc.reverse ∧ c = ']' ∧ cs = '(' :: (p ++ ')' :: rest) ∧ '\n' ∉ p ∧
    ("http".data).isPrefixOf (p ++ ')' :: rest) = false := by
  cases cs with
  | nil => simp [tryHere] at h
  | cons c2 after =>
      rw [tryHere] at h
      by_cases hb : (c == ']' && c2 == '(') = true
      · rw [if_pos hb] at h
        by_cases hh : ("http".data).isPrefixOf after = true
        · rw [if_pos hh] at h
          exact absurd h (by simp)
        · rw [if_neg hh] at h
          cases hsp : searchPath [] after with
          | none => rw [hsp] at h; exact absurd h (by simp)
          | some pr =>
              obtain ⟨path0, rest0⟩ := pr
              rw [hsp] at h
              simp only [Option.some.injEq, Prod.mk.injEq] at h
              obtain ⟨h1, h2, h3⟩ := h
              subst h1 h2 h3
              have hb2 : c = ']' ∧ c2 = '(' := by simpa using hb
              obtain ⟨mid, hm1, hm2, hm3⟩ := searchPath_spec after [] path0 rest0 hsp
              simp only [List.reverse_nil, List.nil_append] at hm1
              refine ⟨rfl, hb2.1, ?_, hm1 ▸ hm3, ?_⟩
              · rw [hb2.2, hm2, ← hm1]
              · rw [← hm1] at hm2
                rw [← hm2]
                exact Bool.eq_false_iff.mpr hh
      · rw [if_neg hb] at h
        exact absurd h (by simp)

theorem searchAlt_spec :
    ∀ (l acc a p rest : List Char), searchAlt acc l = some (a, p, rest) →
      ∃ mid, a = acc.reverse ++ mid ∧
        l = mid ++ ']' :: '(' :: (p ++ ')' :: rest) ∧
        '\n' ∉ mid ∧ '\n' ∉ p ∧
        ("http".data).isPrefixOf (p ++ ')' :: rest) = false := by
  intro l
  induction l with
  | nil => intro acc a p rest h; simp [searchAlt] at h
  | cons c cs ih =>
      intro acc a p rest h
      rw [searchAlt] at h
      cases htry : tryHere acc c cs with
      | some r =>
          rw [htry] at h
          simp only [Option.some.injEq] at h
          subst h
          obtain ⟨h1, h2, h3, h4, h5⟩ := tryHere_spec htry
          refine ⟨[], by simp [h1], ?_, by simp, h4, h5⟩
          rw [List.nil_append, h2, h3]
      | none =>
          rw [htry] at h
          by_cases hcn : (c == '\n') = true
          · rw [if_pos hcn] at h
            exact absurd h (by simp)
          · rw [if_neg hcn] at h
            obtain ⟨mid, h1, h2, h3, h4, h5⟩ := ih (c :: acc) a p rest h
            refine ⟨c :: mid, ?_, ?_, ?_, h4, h5⟩
            · rw [h1]; simp
            · rw [h2]; simp
            · intro hm
              rcases List.mem_cons.mp hm with h6 | h6
              · rw [h6] at hcn; simp at hcn
              · exact h3 h6

theorem isPrefixOf_false_of_append {pre p q : List Char}
    (h : pre.isPrefixOf (p ++ q) = false) : pre.isPrefixOf p = false := by
  by_contra hb
  have h1 : pre <+: p := List.isPrefixOf_iff_prefix.mp (by simpa using hb)
  have h2 : pre <+: p ++ q := h1.trans (List.prefix_append p q)
  rw [← List.isPrefixOf_iff_prefix] at h2
  rw [h2] at h
  cases h

theorem tryMatchAt_spec {l a p rest : List Char} (h : tryMatchAt l = some (a, p, rest)) :
    l = '!' :: '[' :: (a ++ ']' :: '(' :: (p ++ ')' :: rest)) ∧
    '\n' ∉ a ∧ '\n' ∉ p ∧ ("http".data).isPrefixOf p = false := by
  cases l with
  | nil => simp [tryMatchAt] at h
  | cons c1 l1 =>
      cases l1 with
      | nil => simp [tryMatchAt] at h
      | cons c2 rest0 =>
          rw [tryMatchAt] at h
          by_cases hb : (c1 == '!' && c2 == '[') = true
          · rw [if_pos hb] at h
            obtain ⟨mid, h1, h2, h3, h4, h5⟩ := searchAlt_spec rest0 [] a p rest h
            simp only [List.reverse_nil, List.nil_append] at h1
            subst h1
            have hb2 : c1 = '!' ∧ c2 = '[' := by simpa using hb
            refine ⟨?_, h3, h4, isPrefixOf_false_of_append h5⟩
            rw [hb2.1, hb2.2, h2]
          · rw [if_neg hb] at h
            exact absurd h (by simp)

theorem tryMatchAt_rest_length {l a p rest : List Char}
    (h : tryMatchAt l = some (a, p, rest)) : rest.length < l.length := by
  have h1 := (tryMatchAt_spec h).1
  rw [h1]
  simp [List.length_append]
  omega

/-- Reassembled original text of a decomposition. -/
def joinOrig (ps : List Piece) : List Char := (ps.map Piece.orig).flatten

/-- Reassembled rewritten text of a decomposition. -/
def joinRepl (cfg : Config) (fp : PPath) (ps : List Piece) : List Char :=
  (ps.map (Piece.repl cfg fp)).flatten

theorem joinOrig_nil : joinOrig [] = [] := rfl

theorem joinOrig_cons (x : Piece) (xs : List Piece) :
    joinOrig (x :: xs) = Piece.orig x ++ joinOrig xs := by
  simp [joinOrig]

theorem joinRepl_nil (cfg : Config) (fp : PPath) : joinRepl cfg fp [] = [] := rfl

theorem joinRepl_cons (cfg : Config) (fp : PPath) (x : Piece) (xs : List Piece) :
    joinRepl cfg fp (x :: xs) = Piece.repl cfg fp x ++ joinRepl cfg fp xs := by
  simp [joinRepl]

theorem piecesGo_none {n : Nat} {c : Char} {cs : List Char}
    (hm : tryMatchAt (c :: cs) = none) :
    piecesGo (n + 1) (c :: cs) = .ch c :: piecesGo n cs := by
  have h0 : piecesGo (n + 1) (c :: cs) =
      (match tryMatchAt (c :: cs) with
       | some (alt, path, rest) => Piece.img alt path :: piecesGo n rest
       | none => Piece.ch c :: piecesGo n cs) := rfl
  rw [h0, hm]

theorem piecesGo_some {n : Nat} {c : Char} {cs a p rest : List Char}
    (hm : tryMatchAt (c :: cs) = some (a, p, rest)) :
    piecesGo (n + 1) (c :: cs) = .img a p :: piecesGo n rest := by
  have h0 : piecesGo (n + 1) (c :: cs) =
      (match tryMatchAt (c :: cs) with
       | some (alt, path, rest) => Piece.img alt path :: piecesGo n rest
       | none => Piece.ch c :: piecesGo n cs) := rfl
  rw [h0, hm]

theorem subScanGo_none (cfg : Config) (fp : PPath) {n : Nat} {c : Char} {cs : List Char}
    (hm : tryMatchAt (c :: cs) = none) :
    subScanGo cfg fp (n + 1) (c :: cs) = c :: subScanGo cfg fp n cs := by
  have h0 : subScanGo cfg fp (n + 1) (c :: cs) =
      (match tryMatchAt (c :: cs) with
       | some (alt, path, rest) => replText cfg fp alt path ++ subScanGo cfg fp n rest
       | none => c :: subScanGo cfg fp n cs) := rfl
  rw [h0, hm]

theorem subScanGo_some (cfg : Config) (fp : PPath) {n : Nat} {c : Char} {cs a p rest : List Char}
    (hm : tryMatchAt (c :: cs) = some (a, p, rest)) :
    subScanGo cfg fp (n + 1) (c :: cs) = replText cfg fp a p ++ subScanGo cfg fp n rest := by
  have h0 : subScanGo cfg fp (n + 1) (c :: cs) =
      (match tryMatchAt (c :: cs) with
       | some (alt, path, rest) => replText cfg fp alt path ++ subScanGo cfg fp n rest
       | none => c :: subScanGo cfg fp n cs) := rfl
  rw [h0, hm]

theorem piecesGo_orig :
    ∀ (fuel : Nat) (l : List Char), l.length ≤ fuel → joinOrig (piecesGo fuel l) = l := by
  intro fuel
  induction fuel with
  | zero =>
      intro l hl
      have h0 : l = [] := List.length_eq_zero.mp (Nat.le_zero.mp hl)
      subst h0
      rfl
  | succ n ih =>
      intro l hl
      cases l with
      | nil => rfl
      | cons c cs =>
          cases hm : tryMatchAt (c :: cs) with
          | none =>
              rw [piecesGo_none hm, joinOrig_cons,
                ih cs (by simpa using Nat.le_of_succ_le_succ hl)]
              rfl
          | some m =>
              obtain ⟨a, p, rest⟩ := m
              have hspec := tryMatchAt_spec hm
              have hlen := tryMatchAt_rest_length hm
              rw [piecesGo_some hm, joinOrig_cons, ih rest (by
                simp only [List.length_cons] at hl hlen
                omega)]
              rw [hspec.1]
              simp [Piece.orig]

theorem subScanGo_eq_joinRepl (cfg : Config) (fp : PPath) :
    ∀ (fuel : Nat) (l : List Char), l.length ≤ fuel →
      subScanGo cfg fp fuel l = joinRepl cfg fp (piecesGo fuel l) := by
  intro fuel
  induction fuel with
  | zero =>
      intro l hl
      have h0 : l = [] := List.length_eq_zero.mp (Nat.le_zero.mp hl)
      subst h0
      rfl
  | succ n ih =>
      intro l hl
      cases l with
      | nil => rfl
      | cons c cs =>
          cases hm : tryMatchAt (c :: cs) with
          | none =>
              rw [piecesGo_none hm, subScanGo_none cfg fp hm, joinRepl_cons,
                ih cs (by simpa using Nat.le_of_succ_le_succ hl)]
              rfl
          | some m =>
              obtain ⟨a, p, rest⟩ := m
              have hlen := tryMatchAt_rest_length hm
              rw [piecesGo_some hm, subScanGo_some cfg fp hm, joinRepl_cons, ih rest (by
                simp only [List.length_cons] at hl hlen
                omega)]
              rfl

theorem piecesGo_img :
    ∀ (fuel : Nat) (l : List Char), ∀ pc ∈ piecesGo fuel l, ∀ a p, pc = .img a p →
      '\n' ∉ a ∧ '\n' ∉ p ∧ ("http".data).isPrefixOf p = false := by
  intro fuel
  induction fuel with
  | zero =>
      intro l pc hpc a p himg
      cases l with
      | nil => simp [piecesGo] at hpc
      | cons c cs =>
          have h0 : piecesGo 0 (c :: cs) = (c :: cs).map Piece.ch := rfl
          rw [h0] at hpc
          rcases List.mem_map.mp hpc with ⟨x, hx1, hx2⟩
          rw [himg] at hx2
          cases hx2
  | succ n ih =>
      intro l pc hpc a p himg
      cases l with
      | nil => simp [piecesGo] at hpc
      | cons c cs =>
          cases hm : tryMatchAt (c :: cs) with
          | none =>
              rw [piecesGo_none hm] at hpc
              rcases List.mem_cons.mp hpc with h1 | h1
              · rw [himg] at h1; cases h1
              · exact ih cs pc h1 a p himg
          | some m =>
              obtain ⟨a0, p0, rest0⟩ := m
              rw [piecesGo_some hm] at hpc
              rcases List.mem_cons.mp hpc with h1 | h1
              · have hspec := tryMatchAt_spec hm
                rw [himg] at h1
                obtain ⟨ha, hp⟩ := (Piece.img.injEq _ _ _ _).mp h1.symm
                exact ⟨ha ▸ hspec.2.1, hp ▸ hspec.2.2.1, hp ▸ hspec.2.2.2⟩
              · exact ih rest0 pc h1 a p himg

/-- C9 counterexample: text of the image form inside a code fence is
rewritten — the fence's content is not passed through unchanged. -/
theorem C9_counterexample :
    updateImageUrls exCfg ⟨["posts", "a.md"]⟩ "~~~\n![a](b)\n~~~" =
      "~~~\n![a](https://raw.githubusercontent.com/own/repo/main/posts/b)\n~~~" ∧
    updateImageUrls exCfg ⟨["posts", "a.md"]⟩ "~~~\n![a](b)\n~~~" ≠ "~~~\n![a](b)\n~~~" := by
  constructor
  · rfl
  · decide

/-- C9 amended: the rewrite is purely textual.  The body decomposes into
segments such that reassembling the segments' original text gives back
the body character-for-character, the rewritten body is that same
reassembly with each matched segment replaced, and every matched segment
is of the exact inline image form `![alt](path)` (no newlines inside)
with `path` not starting with `http` — regardless of surrounding
context, including inside code fences.  Unmatched characters (other link
syntax, absolute image URLs, fence markers) pass through unchanged. -/
theorem C9_rewrite_decomposition (cfg : Config) (fp : PPath) (body : String) :
    joinOrig (pieces body.data) = body.data ∧
    (updateImageUrls cfg fp body).data = joinRepl cfg fp (pieces body.data) ∧
    (∀ pc ∈ pieces body.data, ∀ alt path, pc = .img alt path →
      Piece.orig pc = "![".data ++ alt ++ "](".data ++ path ++ [')'] ∧
      ("http".data).isPrefixOf path = false ∧ '\n' ∉ alt ∧ '\n' ∉ path) := by
  refine ⟨piecesGo_orig body.data.length body.data (Nat.le_refl _), ?_, ?_⟩
  · exact subScanGo_eq_joinRepl cfg fp body.data.length body.data (Nat.le_refl _)
  · intro pc hpc alt path himg
    obtain ⟨h1, h2, h3⟩ := piecesGo_img body.data.length body.data pc hpc alt path himg
    refine ⟨?_, h3, h1, h2⟩
    rw [himg]
    rfl

/-! ### Claim C10 helper lemmas -/

theorem executeRequest_ok {c : CallRec} {st : RunState} {r : Json} {st1 : RunState}
    (h : executeRequest c st = .ok (r, st1)) :
    st1.calls = st.calls ++ [c] ∧ st1.res = st.res := by
  unfold executeRequest at h
  cases hres : st.responses <;> rw [hres] at h
  · exact absurd h (by simp)
  · simp only [Except.ok.injEq, Prod.mk.injEq] at h
    rw [← h.2]
    exact ⟨rfl, rfl⟩

theorem handlePost_ok_shape {cfg : Config} {f : PPath} {pubId : Json} {st st2 : RunState}
    (h : handlePost cfg f pubId st = .ok st2) :
    ∃ (slug : String) (tailCall : CallRec) (etail : List (String × String)),
      st2.calls = st.calls ++ [.parseFile f, .getPostId slug, tailCall] ∧
      (∀ g : PPath, tailCall ≠ .parseFile g) ∧
      st2.res.errors = st.res.errors ++ etail := by
  simp only [handlePost] at h
  split at h
  · exact absurd h (by simp)
  · rename_i pm hpm
    split at h
    · exact absurd h (by simp)
    · rename_i r1 st1 hr1
      obtain ⟨hc1, hres1⟩ := executeRequest_ok hr1
      split at h
      · exact absurd h (by simp)
      · rename_i postId hpid
        split at h
        · exact absurd h (by simp)
        · rename_i r2 stm hr2
          obtain ⟨hc2, hres2⟩ := executeRequest_ok hr2
          split at h
          · exact absurd h (by simp)
          · rename_i post hext
            by_cases hp : jTruthy post = true
            · rw [if_pos hp] at h
              by_cases hq : jTruthy postId = true
              · rw [if_pos hq] at h
                cases h
                refine ⟨pm.slug,
                  .updatePost (buildPostData cfg f pm
                    (updateImageUrls cfg f (cfg.fileData f).2) pubId postId), [], ?_, ?_, ?_⟩
                · show stm.calls = _
                  rw [hc2, hc1]
                  simp [hq]
                · intro g
                  simp
                · show stm.res.errors = _
                  rw [hres2, hres1]
                  simp
              · rw [if_neg hq] at h
                cases h
                refine ⟨pm.slug,
                  .createPost (buildPostData cfg f pm
                    (updateImageUrls cfg f (cfg.fileData f).2) pubId postId), [], ?_, ?_, ?_⟩
                · show stm.calls = _
                  rw [hc2, hc1]
                  simp only [Bool.not_eq_true] at hq
                  simp [hq]
                · intro g
                  simp
                · show stm.res.errors = _
                  rw [hres2, hres1]
                  simp
            · rw [if_neg hp] at h
              cases h
              refine ⟨pm.slug,
                (if jTruthy postId = true then
                  CallRec.updatePost (buildPostData cfg f pm
                    (updateImageUrls cfg f (cfg.fileData f).2) pubId postId)
                else
                  CallRec.createPost (buildPostData cfg f pm
                    (updateImageUrls cfg f (cfg.fileData f).2) pubId postId)),
                [(f.toStr,
                  "Failed to " ++ (if jTruthy postId = true then "update_post" else "create_post")
                    ++ " post.")], ?_, ?_, ?_⟩
              · show stm.calls = _
                rw [hc2, hc1]
                simp
              · intro g
                by_cases hq : jTruthy postId = true
                · simp [hq]
                · simp only [Bool.not_eq_true] at hq
                  simp [hq]
              · show stm.res.errors ++ _ = _
                rw [hres2, hres1]

theorem processFiles_ok_spec {cfg : Config} {pubId : Json} :
    ∀ (files : List PPath) (st st2 : RunState),
      processFiles cfg pubId files st = .ok st2 →
      (∃ tail, st2.res.errors = st.res.errors ++ tail) ∧
      (∀ g, CallRec.parseFile g ∈ st2.calls →
        CallRec.parseFile g ∈ st.calls ∨ (g ∈ files ∧ isPostFile cfg g = true)) ∧
      (∀ f ∈ files, isPostFile cfg f = false → (f.toStr, noteMsg) ∈ st2.res.errors) := by
  intro files
  induction files with
  | nil =>
      intro st st2 h
      cases h
      exact ⟨⟨[], by simp⟩, fun g hg => Or.inl hg, by simp⟩
  | cons f fs ih =>
      intro st st2 h
      rw [processFiles] at h
      cases h1 : processOneFile cfg pubId f st with
      | error e => rw [h1] at h; exact absurd h (by simp)
      | ok st1 =>
          rw [h1] at h
          obtain ⟨⟨tail1, ht1⟩, hparse1, herr1⟩ := ih st1 st2 h
          unfold processOneFile at h1
          by_cases hpf : isPostFile cfg f = true
          · rw [if_pos hpf] at h1
            obtain ⟨slug, tc, etail, hcalls, htc, herrs⟩ := handlePost_ok_shape h1
            refine ⟨⟨etail ++ tail1, by rw [ht1, herrs]; simp⟩, ?_, ?_⟩
            · intro g hg
              rcases hparse1 g hg with hg1 | hg1
              · rw [hcalls] at hg1
                simp only [List.mem_append, List.mem_cons, List.not_mem_nil, or_false] at hg1
                rcases hg1 with hg2 | hg2 | hg2 | hg2
                · exact Or.inl hg2
                · have : g = f := by injection hg2
                  exact Or.inr ⟨this ▸ List.mem_cons_self f fs, this ▸ hpf⟩
                · exact absurd hg2 (by simp)
                · exact absurd hg2.symm (htc g)
              · exact Or.inr ⟨List.mem_cons_of_mem f hg1.1, hg1.2⟩
            · intro f2 hf2 hnp2
              rcases List.mem_cons.mp hf2 with he | he
              · rw [he] at hnp2
                rw [hnp2] at hpf
                cases hpf
              · exact herr1 f2 he hnp2
          · rw [if_neg hpf] at h1
            simp only [Except.ok.injEq] at h1
            subst h1
            refine ⟨⟨(f.toStr, noteMsg) :: tail1, by rw [ht1]; simp⟩, ?_, ?_⟩
            · intro g hg
              rcases hparse1 g hg with hg1 | hg1
              · exact Or.inl hg1
              · exact Or.inr ⟨List.mem_cons_of_mem f hg1.1, hg1.2⟩
            · intro f2 hf2 hnp2
              rcases List.mem_cons.mp hf2 with he | he
              · rw [ht1, he]
                simp
              · exact herr1 f2 he hnp2

theorem localSlugs_ok_spec {cfg : Config} :
    ∀ (files : List PPath) (acc : List String) (st : RunState)
      (slugs : List String) (st1 : RunState),
      localSlugs cfg files acc st = .ok (slugs, st1) →
      st1.res = st.res ∧
      ∀ g, CallRec.parseFile g ∈ st1.calls → CallRec.parseFile g ∈ st.calls ∨ g ∈ files := by
  intro files
  induction files with
  | nil =>
      intro acc st slugs st1 h
      rw [localSlugs] at h
      simp only [Except.ok.injEq, Prod.mk.injEq] at h
      rw [← h.2]
      exact ⟨rfl, fun g hg => Or.inl hg⟩
  | cons f fs ih =>
      intro acc st slugs st1 h
      rw [localSlugs] at h
      split at h
      · exact absurd h (by simp)
      · rename_i pm hpm
        obtain ⟨hres, hparse⟩ := ih _ _ _ _ h
        refine ⟨by rw [hres], ?_⟩
        intro g hg
        rcases hparse g hg with h1 | h1
        · rcases List.mem_append.mp h1 with h2 | h2
          · exact Or.inl h2
          · simp only [List.mem_singleton] at h2
            have : g = f := by injection h2
            exact Or.inr (this ▸ List.mem_cons_self f fs)
        · exact Or.inr (List.mem_cons_of_mem f h1)

theorem getAllPostsGo_parse_calls :
    ∀ (responses : List Json) (calls : List CallRec) (after : Json) (acc : List RemotePost)
      (posts : List RemotePost) (rem : List Json) (calls2 : List CallRec),
      getAllPostsGo responses calls after acc = .ok (posts, rem, calls2) →
      ∀ g, CallRec.parseFile g ∈ calls2 → CallRec.parseFile g ∈ calls := by
  intro responses
  induction responses with
  | nil =>
      intro calls after acc posts rem calls2 h
      simp [getAllPostsGo] at h
  | cons r rest ih =>
      intro calls after acc posts rem calls2 h g hg
      rw [getAllPostsGo] at h
      split at h
      · exact absurd h (by simp)
      · rename_i page pinfo hp
        split at h
        · exact absurd h (by simp)
        · rename_i hnp hhnp
          by_cases ht : jTruthy hnp = true
          · rw [if_pos ht] at h
            split at h
            · exact absurd h (by simp)
            · rename_i ec hec
              have hmem := ih _ _ _ _ _ _ h g hg
              rcases List.mem_append.mp hmem with h1 | h1
              · exact h1
              · exact absurd h1 (by simp)
          · rw [if_neg ht] at h
            simp only [Except.ok.injEq, Prod.mk.injEq] at h
            obtain ⟨-, -, hc⟩ := h
            rw [← hc] at hg
            rcases List.mem_append.mp hg with h1 | h1
            · exact h1
            · exact absurd h1 (by simp)

theorem handleDeleted_ok_spec {cfg : Config} {st st2 : RunState}
    (h : handleDeleted cfg st = .ok st2) :
    st2.res.errors = st.res.errors ∧
    (∀ g, CallRec.parseFile g ∈ st2.calls →
      CallRec.parseFile g ∈ st.calls ∨ g ∈ cfg.localFiles) := by
  unfold handleDeleted at h
  split at h
  · split at h
    · exact absurd h (by simp)
    · rename_i slugs st1 hls
      obtain ⟨hres1, hparse1⟩ := localSlugs_ok_spec _ _ _ _ _ hls
      split at h
      · exact absurd h (by simp)
      · rename_i posts rem calls2 hwalk
        obtain ⟨hcalls, herrs, -, -, -⟩ := sweepLoop_spec slugs posts _ _ h
        constructor
        · rw [herrs]
          show st1.res.errors = st.res.errors
          rw [hres1]
        · intro g hg
          rw [hcalls] at hg
          rcases List.mem_append.mp hg with h1 | h1
          · have h2 : CallRec.parseFile g ∈ st1.calls :=
              getAllPostsGo_parse_calls _ _ _ _ _ _ _ hwalk g h1
            exact hparse1 g h2
          · rcases List.mem_map.mp h1 with ⟨q, -, hq⟩
            cases hq
  · exact absurd h (by simp)

/-- C10: for every input changed-file path outside the configured posts
directory or without the `.md` suffix, the loop body appends exactly one
error entry naming that file and changes nothing else (no parsing, no
remote call, no response consumed); over any completed run the entry is
in the final error list and the file is never parsed (so it can reach no
outcome bucket).  The hypothesis on `localFiles` states what `rglob`
guarantees: every file of the sweep's tree listing is an `.md` file
under the posts directory. -/
theorem C10_nonmarkdown_rejected :
    (∀ (cfg : Config) (pubId : Json) (f : PPath) (st : RunState),
      isPostFile cfg f = false →
      processOneFile cfg pubId f st = .ok { st with res :=
        { st.res with errors := st.res.errors ++ [(f.toStr, noteMsg)] } }) ∧
    (∀ (cfg : Config) (responses : List Json) (res : Results) (calls : List CallRec) (f : PPath),
      mainRun cfg responses = .ok (res, calls) →
      f ∈ cfg.changedFiles → isPostFile cfg f = false →
      (∀ g ∈ cfg.localFiles, isPostFile cfg g = true) →
      (f.toStr, noteMsg) ∈ res.errors ∧ CallRec.parseFile f ∉ calls) := by
  constructor
  · intro cfg pubId f st hnp
    simp [processOneFile, hnp]
  · intro cfg responses res calls f hmain hmem hnp hlocal
    unfold mainRun at hmain
    split at hmain
    · exact absurd hmain (by simp)
    · rename_i r st0 hreq
      obtain ⟨hc0, hres0⟩ := executeRequest_ok hreq
      split at hmain
      · exact absurd hmain (by simp)
      · rename_i pubId hpub
        split at hmain
        · exact absurd hmain (by simp)
        · rename_i st1 hpf
          split at hmain
          · exact absurd hmain (by simp)
          · rename_i st2 hhd
            simp only [Except.ok.injEq, Prod.mk.injEq] at hmain
            obtain ⟨h1, h2⟩ := hmain
            obtain ⟨⟨tail, herr⟩, hparse, hnote⟩ := processFiles_ok_spec _ _ _ hpf
            obtain ⟨herrs2, hparse2⟩ := handleDeleted_ok_spec hhd
            constructor
            · rw [← h1, herrs2]
              exact hnote f hmem hnp
            · intro hg
              rw [← h2] at hg
              rcases hparse2 _ hg with hg1 | hg1
              · rcases hparse _ hg1 with hg2 | hg2
                · rw [hc0] at hg2
                  rcases List.mem_append.mp hg2 with hg3 | hg3
                  · simp at hg3
                  · simp at hg3
                · rw [hg2.2] at hnp
                  cases hnp
              · have := hlocal f hg1
                rw [this] at hnp
                cases hnp

/-- A configuration whose only changed file is a text file outside the
posts tree. -/
def c10Cfg : Config :=
  { exCfg with changedFiles := [⟨["docs", "note.txt"]⟩] }

/-- Witness for C10 at a changed text file outside the posts tree, both
for the loop step and for a full completed run. -/
theorem C10_nonmarkdown_rejected_witness :
    (processOneFile exCfg (.s "pub1") ⟨["docs", "note.txt"]⟩ { responses := [] } =
      .ok { responses := [],
            res := { errors := [("docs/note.txt", noteMsg)] }, calls := [] }) ∧
    (("docs/note.txt", noteMsg) ∈
        (Results.mk [] [] [] [("docs/note.txt", noteMsg)]).errors ∧
      CallRec.parseFile ⟨["docs", "note.txt"]⟩ ∉
        [CallRec.fetchPublication, CallRec.getPosts 50 .null]) := by
  constructor
  · exact C10_nonmarkdown_rejected.1 exCfg (.s "pub1") ⟨["docs", "note.txt"]⟩
      { responses := [] } (by decide)
  · exact C10_nonmarkdown_rejected.2 c10Cfg [exPubResp, mkPageResp [] false .null]
      (Results.mk [] [] [] [("docs/note.txt", noteMsg)])
      [CallRec.fetchPublication, CallRec.getPosts 50 .null]
      ⟨["docs", "note.txt"]⟩ rfl (by decide) (by decide) (by intro g hg; cases hg)

/-- Witness for C9 at a body mixing a match, a non-matching absolute
image URL and plain text. -/
theorem C9_rewrite_decomposition_witness :
    joinOrig (pieces ("x ![a](b) ![c](http://u) y".data)) = "x ![a](b) ![c](http://u) y".data ∧
    (updateImageUrls exCfg ⟨["posts", "a.md"]⟩ "x ![a](b) ![c](http://u) y").data =
      joinRepl exCfg ⟨["posts", "a.md"]⟩ (pieces ("x ![a](b) ![c](http://u) y".data)) ∧
    ("http".data).isPrefixOf ("b".data) = false :=
  ⟨(C9_rewrite_decomposition exCfg ⟨["posts", "a.md"]⟩ "x ![a](b) ![c](http://u) y").1,
   (C9_rewrite_decomposition exCfg ⟨["posts", "a.md"]⟩ "x ![a](b) ![c](http://u) y").2.1,
   ((C9_rewrite_decomposition exCfg ⟨["posts", "a.md"]⟩ "x ![a](b) ![c](http://u) y").2.2
     (Piece.img ("a".data) ("b".data)) (by decide) ("a".data) ("b".data) rfl).2.1⟩

end HNode
